import Mathlib

/-
  Verification of the coverage reconciliation engine of
  `vitest-coverage-merge` (src/src/index.ts: the smart-merge module
  `buildLookups` / `selectBestSource` / `mergeFileCoverages` /
  `smartMergeCoverage`, and the normalize module `normalizeCoverage` /
  `normalizeFileCoverage` / `isDirective`).

  Shallow embedding conventions:
  * JavaScript objects (`statementMap`, `s`, ...) are association lists in
    declaration order; JS object keys are unique, which theorems assume via
    explicit `Nodup` hypotheses where it matters.
  * JS `Map` is also an association list; `Map.get` is `aget` (first match),
    `Map.set` is `aset` (replace-in-place else append), matching insertion
    order semantics.
  * `column: number | null` is `Option Nat` (`none` is the null sentinel).
  * Execution counts are `Nat` (the data model keeps them nonnegative).
  * The filesystem collaborator used by the normalizer
    (`existsSync` + `readFileSync(...).split('\n')`) is passed in as an
    `Option (List String)` per file: `none` models a missing path or a read
    failure, `some lines` the line-split source text.
-/

namespace VCM

/-- `{line, column}` of a position; `column = none` models the null sentinel. -/
structure Pos where
  line : Nat
  column : Option Nat
deriving DecidableEq, Repr

/-- `Location = { start: { line, column } }` (the `end` field is unused by the merge). -/
structure Location where
  start : Pos
deriving DecidableEq, Repr

/-- `FnEntry = { loc }` (only the `loc` field is read by the merge). -/
structure FnEntry where
  loc : Location
deriving DecidableEq, Repr

/-- `BranchEntry = { loc }` (only the `loc` field is read by the merge). -/
structure BranchEntry where
  loc : Location
deriving DecidableEq, Repr

/-- `FileCoverageData`: one file coverage record, maps as ordered association lists. -/
structure FileCoverageData where
  path : String
  statementMap : List (String × Location)
  s : List (String × Nat)
  fnMap : List (String × FnEntry)
  f : List (String × Nat)
  branchMap : List (String × BranchEntry)
  b : List (String × List Nat)
deriving DecidableEq, Repr

/-- A coverage map: file path to file coverage record, in declaration order. -/
abbrev CoverageMapData := List (String × FileCoverageData)

/-- Association-list lookup: the first entry whose key matches (JS `Map.get` / `obj[k]`). -/
def aget {K V : Type} [DecidableEq K] : List (K × V) → K → Option V
  | [], _ => none
  | kv :: rest, k => if kv.1 = k then some kv.2 else aget rest k

/-- Association-list write: replace the first matching entry in place, else append
(JS `Map.set` / `obj[k] = v` keep insertion order on overwrite). -/
def aset {K V : Type} [DecidableEq K] : List (K × V) → K → V → List (K × V)
  | [], k, v => [(k, v)]
  | kv :: rest, k, v => if kv.1 = k then (k, v) :: rest else kv :: aset rest k v

/-- Renders a column the way JS string interpolation does: a number, or the
literal `null` for the null sentinel. -/
def columnText : Option Nat → String
  | none => "null"
  | some c => toString c

/-- `locationKey(loc) = `line:column``, the exact match key. -/
def locationKey (loc : Location) : String :=
  toString loc.start.line ++ ":" ++ columnText loc.start.column

/-- `lineKey(loc)`: the line number, the fallback match key. -/
def lineKey (loc : Location) : Nat := loc.start.line

/-- The six lookup maps built per source by `buildLookups`. -/
structure CoverageLookups where
  stmts : List (String × Nat)
  stmtsByLine : List (Nat × Nat)
  fns : List (String × Nat)
  fnsByLine : List (Nat × Nat)
  branches : List (String × List Nat)
  branchesByLine : List (Nat × List Nat)
deriving DecidableEq, Repr

/-- `data.s[key] || 0`. -/
def sCount (data : FileCoverageData) (key : String) : Nat := (aget data.s key).getD 0

/-- `data.f[key] || 0`. -/
def fCount (data : FileCoverageData) (key : String) : Nat := (aget data.f key).getD 0

/-- `data.b[key] || []`. -/
def bCounts (data : FileCoverageData) (key : String) : List Nat := (aget data.b key).getD []

/-- One iteration of the statement loop of `buildLookups`: skip zero counts, else
record under the exact key and fold `Math.max` into the line-fallback map. -/
def stmtStep (data : FileCoverageData) (acc : List (String × Nat) × List (Nat × Nat))
    (kv : String × Location) : List (String × Nat) × List (Nat × Nat) :=
  let count := sCount data kv.1
  if 0 < count then
    (aset acc.1 (locationKey kv.2) count,
     aset acc.2 (lineKey kv.2) (max ((aget acc.2 (lineKey kv.2)).getD 0) count))
  else acc

/-- One iteration of the function loop of `buildLookups` (same shape, over `fnMap`/`f`). -/
def fnStep (data : FileCoverageData) (acc : List (String × Nat) × List (Nat × Nat))
    (kv : String × FnEntry) : List (String × Nat) × List (Nat × Nat) :=
  let count := fCount data kv.1
  if 0 < count then
    (aset acc.1 (locationKey kv.2.loc) count,
     aset acc.2 (lineKey kv.2.loc) (max ((aget acc.2 (lineKey kv.2.loc)).getD 0) count))
  else acc

/-- One iteration of the branch loop of `buildLookups`: skip all-zero arrays, else
record under the exact key; the line-fallback map is only written if the line is
not already present (first writer wins). -/
def branchStep (data : FileCoverageData)
    (acc : List (String × List Nat) × List (Nat × List Nat))
    (kv : String × BranchEntry) : List (String × List Nat) × List (Nat × List Nat) :=
  let counts := bCounts data kv.1
  if counts.any (fun c => decide (0 < c)) then
    (aset acc.1 (locationKey kv.2.loc) counts,
     if (aget acc.2 (lineKey kv.2.loc)).isSome then acc.2
     else aset acc.2 (lineKey kv.2.loc) counts)
  else acc

/-- `buildLookups(data)`: the three loops of the source, folded in declaration order. -/
def buildLookups (data : FileCoverageData) : CoverageLookups :=
  let sPair := data.statementMap.foldl (stmtStep data) ([], [])
  let fPair := data.fnMap.foldl (fnStep data) ([], [])
  let bPair := data.branchMap.foldl (branchStep data) ([], [])
  { stmts := sPair.1, stmtsByLine := sPair.2
    fns := fPair.1, fnsByLine := fPair.2
    branches := bPair.1, branchesByLine := bPair.2 }

/-- `getTotalItems(cov)`: declared statements + branches + functions. -/
def getTotalItems (cov : FileCoverageData) : Nat :=
  cov.statementMap.length + cov.branchMap.length + cov.fnMap.length

/-- The `hasDirective` test of `selectBestSource`: some statement entry starts at
line 1 with column 0 or column null. -/
def hasL1Directive (cov : FileCoverageData) : Bool :=
  cov.statementMap.any (fun kv =>
    kv.2.start.line == 1 && (kv.2.start.column == some 0 || kv.2.start.column == none))

/-- The candidates of `selectBestSource`: sources with a nonzero item total,
paired with their original index. -/
def nonEmptyWithIndex (coverages : List FileCoverageData) : List (Nat × FileCoverageData) :=
  (coverages.enum).filter (fun p => decide (0 < getTotalItems p.2))

/-- `selectBestSource(coverages)`. `none` only for an empty input list
(where the source would return `coverages[0]`, i.e. `undefined`). -/
def selectBestSource (coverages : List FileCoverageData) : Option FileCoverageData :=
  match nonEmptyWithIndex coverages with
  | [] => coverages.head?
  | [single] => some single.2
  | p :: q :: rest =>
    match (p :: q :: rest).filter (fun item => !hasL1Directive item.2) with
    | w :: ws =>
      some ((ws.foldl (fun best current => if best.1 < current.1 then current else best) w).2)
    | [] =>
      some (((q :: rest).foldl (fun best current =>
        if getTotalItems current.2 < getTotalItems best.2 then current else best) p).2)

/-- `lookup.stmts.get(locKey) ?? lookup.stmtsByLine.get(line)`. -/
def lookupStmtCount (lk : CoverageLookups) (locKey : String) (line : Nat) : Option Nat :=
  (aget lk.stmts locKey).orElse (fun _ => aget lk.stmtsByLine line)

/-- `lookup.fns.get(locKey) ?? lookup.fnsByLine.get(line)`. -/
def lookupFnCount (lk : CoverageLookups) (locKey : String) (line : Nat) : Option Nat :=
  (aget lk.fns locKey).orElse (fun _ => aget lk.fnsByLine line)

/-- `lookup.branches.get(locKey) ?? lookup.branchesByLine.get(line)`. -/
def lookupBranchCounts (lk : CoverageLookups) (locKey : String) (line : Nat) :
    Option (List Nat) :=
  (aget lk.branches locKey).orElse (fun _ => aget lk.branchesByLine line)

/-- The inner loop of the statement/function merge: keep the count from a lookup
when it is defined and strictly larger than the running maximum. -/
def maxCountOver (cands : List (Option Nat)) (base : Nat) : Nat :=
  cands.foldl (fun mc oc => match oc with
    | some c => if mc < c then c else mc
    | none => mc) base

/-- `baseCounts.map((c, i) => Math.max(c, counts[i] || 0))`: elementwise max,
keeping the base array's length, missing trailing indices of `counts` as 0. -/
def zipMaxPad : List Nat → List Nat → List Nat
  | [], _ => []
  | c :: cs, [] => max c 0 :: zipMaxPad cs []
  | c :: cs, d :: ds => max c d :: zipMaxPad cs ds

/-- The branch inner loop of `mergeFileCoverages` only retains the counts array of
the last source whose branch lookup matches: `baseCounts` is captured before the
per-source loop and every match overwrites `merged.b[key]` with
`baseCounts.map(max ...)`, so earlier matches are discarded. -/
def lastBranchMatch (lookups : List CoverageLookups) (locKey : String) (line : Nat) :
    Option (List Nat) :=
  lookups.foldl (fun acc lk => match lookupBranchCounts lk locKey line with
    | some counts => some counts
    | none => acc) none

/-- The statement merge loop: for every id of the copied `statementMap`, write back
the running maximum (starting from the copied record's own count) over all lookups. -/
def mergeStmtCounts (lookups : List CoverageLookups) (entries : List (String × Location))
    (s0 : List (String × Nat)) : List (String × Nat) :=
  entries.foldl (fun acc kv =>
    aset acc kv.1 (maxCountOver
      (lookups.map (fun lk => lookupStmtCount lk (locationKey kv.2) (lineKey kv.2)))
      ((aget acc kv.1).getD 0))) s0

/-- The function merge loop (same shape as the statement loop, over `fnMap`/`f`). -/
def mergeFnCounts (lookups : List CoverageLookups) (entries : List (String × FnEntry))
    (f0 : List (String × Nat)) : List (String × Nat) :=
  entries.foldl (fun acc kv =>
    aset acc kv.1 (maxCountOver
      (lookups.map (fun lk => lookupFnCount lk (locationKey kv.2.loc) (lineKey kv.2.loc)))
      ((aget acc kv.1).getD 0))) f0

/-- The branch merge loop: `baseCounts` is read once per id; if any lookup matches,
the final value is `max` of `baseCounts` against the **last** matching lookup's
array (each match overwrites the previous write); otherwise the entry is untouched. -/
def mergeBranchCounts (lookups : List CoverageLookups) (entries : List (String × BranchEntry))
    (b0 : List (String × List Nat)) : List (String × List Nat) :=
  entries.foldl (fun acc kv =>
    match lastBranchMatch lookups (locationKey kv.2.loc) (lineKey kv.2.loc) with
    | some counts => aset acc kv.1 (zipMaxPad ((aget acc kv.1).getD []) counts)
    | none => acc) b0

/-- `mergeFileCoverages(coverages)`: `none` models the thrown error on an empty
list; one source is returned as a (value) copy; otherwise the selected baseline's
shape is copied and counts are merged from all sources' lookups. -/
def mergeFileCoverages : List FileCoverageData → Option FileCoverageData
  | [] => none
  | [single] => some single
  | c0 :: c1 :: rest =>
    match selectBestSource (c0 :: c1 :: rest) with
    | none => none
    | some bestSource =>
      let allLookups := (c0 :: c1 :: rest).map buildLookups
      some { path := c0.path
             statementMap := bestSource.statementMap
             s := mergeStmtCounts allLookups bestSource.statementMap bestSource.s
             fnMap := bestSource.fnMap
             f := mergeFnCounts allLookups bestSource.fnMap bestSource.f
             branchMap := bestSource.branchMap
             b := mergeBranchCounts allLookups bestSource.branchMap bestSource.b }

/-- The `Set` of all file paths across the maps, in insertion order. -/
def addFileKeys (acc : List String) (m : CoverageMapData) : List String :=
  m.foldl (fun acc2 kv => if kv.1 ∈ acc2 then acc2 else acc2 ++ [kv.1]) acc

/-- Union of file paths across all maps, first-occurrence order. -/
def collectAllFiles (maps : List CoverageMapData) : List String :=
  maps.foldl addFileKeys []

/-- Per-file dispatch of `smartMergeCoverage`: the subset of maps containing the
file, copied verbatim when it is a single record, merged otherwise. -/
def mergeForFile (maps : List CoverageMapData) (file : String) : Option FileCoverageData :=
  match maps.filterMap (fun m => aget m file) with
  | [fc] => some fc
  | fcs => mergeFileCoverages fcs

/-- `smartMergeCoverage(coverageMaps)`: empty list gives the empty map, a single
map is returned as a (value) copy, otherwise per-file dispatch over the union of
file paths. -/
def smartMergeCoverage : List CoverageMapData → CoverageMapData
  | [] => []
  | [single] => single
  | m0 :: m1 :: rest =>
    (collectAllFiles (m0 :: m1 :: rest)).filterMap (fun file =>
      (mergeForFile (m0 :: m1 :: rest) file).map (fun fc => (file, fc)))

/-- `isDirective(line)`: exactly the eight directive literals. -/
def isDirective (line : String) : Bool :=
  line == "\x27use server\x27" ||
  line == "\x22use server\x22" ||
  line == "\x27use server\x27;" ||
  line == "\x22use server\x22;" ||
  line == "\x27use client\x27" ||
  line == "\x22use client\x22" ||
  line == "\x27use client\x27;" ||
  line == "\x22use client\x22;"

/-- JS `String.prototype.startsWith`, modelled on the character lists. -/
def jsStartsWith (s pre : String) : Bool := pre.data.isPrefixOf s.data

/-- An ASCII whitespace character (the whitespace relevant to source lines). -/
def isJsWhitespace (c : Char) : Bool :=
  c == ' ' || c == '\x09' || c == '\x0a' || c == '\x0d' || c == '\x0b' || c == '\x0c'

/-- JS `String.prototype.trim`, modelled on the character lists: drop leading
and trailing whitespace. -/
def jsTrim (s : String) : String :=
  String.mk (((s.data.dropWhile isJsWhitespace).reverse.dropWhile isJsWhitespace).reverse)

/-- The import test of `normalizeFileCoverage`:
`lineContent.startsWith('import ') || lineContent.startsWith('import{')`. -/
def isImportLine (line : String) : Bool :=
  jsStartsWith line "import " || jsStartsWith line "import\x7b"

/-- `lines[lineNum - 1]?.trim() || ''`. -/
def lineContentAt (lines : List String) (lineNum : Nat) : String :=
  ((lines.get? (lineNum - 1)).map jsTrim).getD ""

/-- One iteration of the classification loop of `normalizeFileCoverage`: push
the key tagged `true` for an import line, `false` for a directive line. -/
def classifyStep (lines : List String) (acc : List (String × Bool))
    (kv : String × Location) : List (String × Bool) :=
  let lineContent := lineContentAt lines kv.2.start.line
  if isImportLine lineContent then acc ++ [(kv.1, true)]
  else if isDirective lineContent then acc ++ [(kv.1, false)]
  else acc

/-- The classification loop of `normalizeFileCoverage`: the keys to remove in
statement order, tagged `true` for an import line, `false` for a directive line. -/
def classifyKeysToRemove (lines : List String) (stmtMap : List (String × Location)) :
    List (String × Bool) :=
  stmtMap.foldl (classifyStep lines) []

/-- Per-entry classification (the body of the loop, as a partial function):
what a single statement entry contributes to the keys-to-remove list. -/
def pickRemoval (lines : List String) (kv : String × Location) : Option (String × Bool) :=
  let lineContent := lineContentAt lines kv.2.start.line
  if isImportLine lineContent then some (kv.1, true)
  else if isDirective lineContent then some (kv.1, false)
  else none

/-- The per-file result of normalization. -/
structure NormalizeFileResult where
  fileData : FileCoverageData
  importsRemoved : Nat
  directivesRemoved : Nat
deriving DecidableEq, Repr

/-- `normalizeFileCoverage(filePath, fileData)`. The read collaborator is the
first argument: `none` models a missing path or a thrown read (both return with
zero effect); `some lines` the line-split source text. Removal deletes the
classified keys from `statementMap` and `s` and counts them by tag. -/
def normalizeFileCoverage (lines? : Option (List String)) (fileData : FileCoverageData) :
    NormalizeFileResult :=
  match lines? with
  | none => { fileData := fileData, importsRemoved := 0, directivesRemoved := 0 }
  | some lines =>
    if lines.length = 0 then
      { fileData := fileData, importsRemoved := 0, directivesRemoved := 0 }
    else
      let keysToRemove := classifyKeysToRemove lines fileData.statementMap
      let keys := keysToRemove.map Prod.fst
      { fileData := { fileData with
          statementMap := fileData.statementMap.filter (fun kv => !(keys.contains kv.1))
          s := fileData.s.filter (fun kv => !(keys.contains kv.1)) }
        importsRemoved := (keysToRemove.filter (fun kr => kr.2)).length
        directivesRemoved := (keysToRemove.filter (fun kr => !kr.2)).length }

/-- The overall result of `normalizeCoverage`. -/
structure NormalizeResult where
  coverageMap : CoverageMapData
  importsRemoved : Nat
  directivesRemoved : Nat
deriving DecidableEq, Repr

/-- `normalizeCoverage(coverageMap)`: normalize every record with its own source
text (supplied by the `sourceLines` collaborator) and sum the removal counters. -/
def normalizeCoverage (sourceLines : String → Option (List String))
    (coverageMap : CoverageMapData) : NormalizeResult :=
  let results := coverageMap.map (fun kv => (kv.1, normalizeFileCoverage (sourceLines kv.1) kv.2))
  { coverageMap := results.map (fun kv => (kv.1, kv.2.fileData))
    importsRemoved := (results.map (fun kv => kv.2.importsRemoved)).sum
    directivesRemoved := (results.map (fun kv => kv.2.directivesRemoved)).sum }

/-- Combine two optional counts, taking the maximum when both are present
(used to state what the statement/function line-fallback maps hold). -/
def omax : Option Nat → Option Nat → Option Nat
  | none, b => b
  | some x, none => some x
  | some x, some y => some (max x y)

/-! ### Example records used by the concrete theorems and witnesses -/

/-- Helper to build a location. -/
def mkLoc (l : Nat) (c : Option Nat) : Location := ⟨⟨l, c⟩⟩

/-- First source of the branch-merge failing input: statement on line 2 (no
line-1 pseudo-statement), branch on line 3 with counts `[5, 0]`. -/
def exA : FileCoverageData :=
  { path := "/p.ts"
    statementMap := [("0", mkLoc 2 (some 0))], s := [("0", 1)]
    fnMap := [], f := []
    branchMap := [("0", ⟨mkLoc 3 (some 0)⟩)], b := [("0", [5, 0])] }

/-- Second source of the branch-merge failing input: same shape, branch counts
`[0, 7]`. Lacking a line-1 pseudo-statement and supplied last, it is selected
as the baseline. -/
def exB : FileCoverageData :=
  { path := "/p.ts"
    statementMap := [("0", mkLoc 2 (some 0))], s := [("0", 1)]
    fnMap := [], f := []
    branchMap := [("0", ⟨mkLoc 3 (some 0)⟩)], b := [("0", [0, 7])] }

/-- The record `mergeFileCoverages [exA, exB]` evaluates to. -/
def exMerged : FileCoverageData :=
  { path := "/p.ts"
    statementMap := [("0", mkLoc 2 (some 0))], s := [("0", 1)]
    fnMap := [], f := []
    branchMap := [("0", ⟨mkLoc 3 (some 0)⟩)], b := [("0", [0, 7])] }

/-- A record with a line-1 column-0 pseudo-statement. -/
def exDir : FileCoverageData :=
  { path := "/p.ts"
    statementMap := [("0", mkLoc 1 (some 0)), ("1", mkLoc 2 (some 0))]
    s := [("0", 1), ("1", 1)]
    fnMap := [], f := [], branchMap := [], b := [] }

/-- A second record with a line-1 pseudo-statement and the same item total as
`exDir`, for the fewest-items tie. -/
def exDir2 : FileCoverageData :=
  { path := "/p.ts"
    statementMap := [("0", mkLoc 1 (some 0)), ("1", mkLoc 3 (some 0))]
    s := [("0", 1), ("1", 0)]
    fnMap := [], f := [], branchMap := [], b := [] }

/-- Source lines of the normalization scenario: a quoted directive first, then
an import statement, then ordinary code. -/
def scLines : List String :=
  ["\x27use client\x27", "import React from \x27react\x27", "const x = 1"]

/-- Coverage record of the normalization scenario: one statement entry starting
on each of the first two lines. -/
def scD : FileCoverageData :=
  { path := "/sc.ts"
    statementMap := [("0", mkLoc 1 (some 0)), ("1", mkLoc 2 (some 0))]
    s := [("0", 1), ("1", 1)]
    fnMap := [], f := [], branchMap := [], b := [] }

/-- A coverage map holding only `/only.ts`. -/
def exMapX : CoverageMapData := [("/only.ts", exA)]

/-- A coverage map holding only `/other.ts`. -/
def exMapY : CoverageMapData := [("/other.ts", exB)]

/-! ### Association-list lemmas -/

theorem aget_aset_self {K V : Type} [DecidableEq K] (m : List (K × V)) (k : K) (v : V) :
    aget (aset m k v) k = some v := by
  induction m with
  | nil => simp [aset, aget]
  | cons kv rest ih =>
    by_cases h : kv.1 = k
    · simp [aset, h, aget]
    · simp [aset, h, aget, ih]

theorem aget_aset_ne {K V : Type} [DecidableEq K] (m : List (K × V)) (k : K) (v : V)
    (q : K) (h : q ≠ k) : aget (aset m k v) q = aget m q := by
  have hk : ¬(k = q) := fun hh => h hh.symm
  induction m with
  | nil =>
    simp only [aset, aget]
    rw [if_neg hk]
  | cons kv rest ih =>
    by_cases h1 : kv.1 = k
    · simp only [aset, if_pos h1, aget]
      rw [if_neg hk, if_neg (h1 ▸ hk)]
    · simp only [aset, if_neg h1, aget]
      by_cases h2 : kv.1 = q
      · rw [if_pos h2, if_pos h2]
      · rw [if_neg h2, if_neg h2, ih]

theorem aget_aset_cases {K V : Type} [DecidableEq K] (m : List (K × V)) (k : K) (v : V)
    (q : K) (c : V) (h : aget (aset m k v) q = some c) :
    c = v ∨ aget m q = some c := by
  by_cases hq : q = k
  · subst hq
    rw [aget_aset_self] at h
    exact Or.inl (Option.some_injective _ h.symm)
  · rw [aget_aset_ne m k v q hq] at h
    exact Or.inr h

theorem mem_keys_of_aget_some {K V : Type} [DecidableEq K] {m : List (K × V)} {k : K}
    {v : V} (h : aget m k = some v) : k ∈ m.map Prod.fst := by
  induction m with
  | nil => simp [aget] at h
  | cons kv rest ih =>
    simp only [aget] at h
    by_cases h1 : kv.1 = k
    · simp [← h1]
    · rw [if_neg h1] at h
      simp [ih h]

/-! ### Max-fold lemmas -/

theorem if_lt_eq_max (a c : Nat) : (if a < c then c else a) = max a c := by
  rcases Nat.lt_or_ge a c with h | h
  · simp [h, Nat.max_eq_right h.le]
  · simp [Nat.not_lt.2 h, Nat.max_eq_left h]

theorem foldl_max_init (l : List Nat) : ∀ a : Nat, l.foldl max a = max a (l.foldl max 0) := by
  induction l with
  | nil => intro a; simp
  | cons x t ih =>
    intro a
    simp only [List.foldl_cons]
    rw [ih (max a x), ih (max 0 x)]
    simp [Nat.max_assoc]

theorem foldl_max_perm {l l' : List Nat} (h : l.Perm l') :
    ∀ a : Nat, l.foldl max a = l'.foldl max a := by
  induction h with
  | nil => intro a; rfl
  | cons x _ ih =>
    intro a
    simp only [List.foldl_cons]
    exact ih (max a x)
  | swap x y l =>
    intro a
    simp only [List.foldl_cons]
    have : max (max a y) x = max (max a x) y := by
      rw [Nat.max_assoc, Nat.max_comm y x, ← Nat.max_assoc]
    rw [this]
  | trans _ _ ih1 ih2 =>
    intro a
    exact (ih1 a).trans (ih2 a)

theorem maxCountOver_eq (cands : List (Option Nat)) :
    ∀ base : Nat, maxCountOver cands base = max base ((cands.filterMap id).foldl max 0) := by
  induction cands with
  | nil => intro base; simp [maxCountOver]
  | cons oc t ih =>
    intro base
    cases oc with
    | none =>
      simpa [maxCountOver, List.filterMap_cons] using ih base
    | some c =>
      show maxCountOver t (if base < c then c else base)
        = max base (((some c :: t).filterMap id).foldl max 0)
      rw [ih (if base < c then c else base), if_lt_eq_max]
      have h0 : (some c :: t).filterMap id = c :: t.filterMap id := by
        simp [List.filterMap_cons]
      rw [h0]
      have h1 : (c :: t.filterMap id).foldl max 0 = max c ((t.filterMap id).foldl max 0) := by
        rw [List.foldl_cons, foldl_max_init]
        simp
      rw [h1, Nat.max_assoc]

theorem le_maxCountOver (cands : List (Option Nat)) : ∀ base : Nat,
    base ≤ maxCountOver cands base := by
  induction cands with
  | nil => intro base; simp [maxCountOver]
  | cons oc t ih =>
    intro base
    have step : base ≤ (match oc with
      | some c => if base < c then c else base
      | none => base) := by
      cases oc with
      | none => exact Nat.le_refl base
      | some c =>
        show base ≤ if base < c then c else base
        rw [if_lt_eq_max]
        exact Nat.le_max_left base c
    calc base ≤ _ := step
      _ ≤ _ := ih _

theorem maxCountOver_perm {L L' : List (Option Nat)} (h : L.Perm L') (base : Nat) :
    maxCountOver L base = maxCountOver L' base := by
  rw [maxCountOver_eq, maxCountOver_eq]
  have hp : (L.filterMap id).Perm (L'.filterMap id) := h.filterMap id
  rw [foldl_max_perm hp 0]

/-! ### zipMaxPad lemmas -/

theorem zipMaxPad_length : ∀ (base cts : List Nat), (zipMaxPad base cts).length = base.length := by
  intro base
  induction base with
  | nil => intro cts; cases cts <;> simp [zipMaxPad]
  | cons c cs ih =>
    intro cts
    cases cts with
    | nil => simp [zipMaxPad, ih]
    | cons d ds => simp [zipMaxPad, ih]

theorem zipMaxPad_getD_le : ∀ (base cts : List Nat) (i : Nat),
    base.getD i 0 ≤ (zipMaxPad base cts).getD i 0 := by
  intro base
  induction base with
  | nil => intro cts i; cases cts <;> simp [zipMaxPad]
  | cons c cs ih =>
    intro cts i
    cases cts with
    | nil =>
      cases i with
      | zero => simp [zipMaxPad]
      | succ j => simpa [zipMaxPad] using ih [] j
    | cons d ds =>
      cases i with
      | zero => simp [zipMaxPad, Nat.le_max_left]
      | succ j => simpa [zipMaxPad] using ih ds j

/-! ### Merge-loop characterizations -/

theorem mergeStmtCounts_cons (lookups : List CoverageLookups) (kv : String × Location)
    (t : List (String × Location)) (s0 : List (String × Nat)) :
    mergeStmtCounts lookups (kv :: t) s0 =
      mergeStmtCounts lookups t (aset s0 kv.1 (maxCountOver
        (lookups.map (fun lk => lookupStmtCount lk (locationKey kv.2) (lineKey kv.2)))
        ((aget s0 kv.1).getD 0))) := rfl

theorem mergeStmtCounts_aget_not_mem (lookups : List CoverageLookups) :
    ∀ (entries : List (String × Location)) (s0 : List (String × Nat)) (k : String),
    k ∉ entries.map Prod.fst → aget (mergeStmtCounts lookups entries s0) k = aget s0 k := by
  intro entries
  induction entries with
  | nil => intro s0 k _; rfl
  | cons kv t ih =>
    intro s0 k hk
    simp only [List.map_cons, List.mem_cons] at hk
    push_neg at hk
    rw [mergeStmtCounts_cons, ih _ k hk.2, aget_aset_ne _ _ _ _ hk.1]

theorem mergeStmtCounts_aget (lookups : List CoverageLookups) :
    ∀ (entries : List (String × Location)) (s0 : List (String × Nat)) (k : String)
    (loc : Location), (entries.map Prod.fst).Nodup → (k, loc) ∈ entries →
    aget (mergeStmtCounts lookups entries s0) k =
      some (maxCountOver
        (lookups.map (fun lk => lookupStmtCount lk (locationKey loc) (lineKey loc)))
        ((aget s0 k).getD 0)) := by
  intro entries
  induction entries with
  | nil => intro s0 k loc _ hmem; simp at hmem
  | cons kv t ih =>
    intro s0 k loc hnd hmem
    simp only [List.map_cons, List.nodup_cons] at hnd
    rw [mergeStmtCounts_cons]
    rcases List.mem_cons.1 hmem with heq | hmemt
    · have hk : kv.1 = k := by rw [← heq]
      have hloc : kv.2 = loc := by rw [← heq]
      have hknot : k ∉ t.map Prod.fst := hk ▸ hnd.1
      rw [mergeStmtCounts_aget_not_mem lookups t _ k hknot, hk, hloc, aget_aset_self]
    · have hkmem : k ∈ t.map Prod.fst := List.mem_map_of_mem Prod.fst hmemt
      have hk : kv.1 ≠ k := fun hh => hnd.1 (hh ▸ hkmem)
      rw [ih _ k loc hnd.2 hmemt, aget_aset_ne _ _ _ _ (fun hh => hk hh.symm)]

theorem mergeFnCounts_cons (lookups : List CoverageLookups) (kv : String × FnEntry)
    (t : List (String × FnEntry)) (f0 : List (String × Nat)) :
    mergeFnCounts lookups (kv :: t) f0 =
      mergeFnCounts lookups t (aset f0 kv.1 (maxCountOver
        (lookups.map (fun lk => lookupFnCount lk (locationKey kv.2.loc) (lineKey kv.2.loc)))
        ((aget f0 kv.1).getD 0))) := rfl

theorem mergeFnCounts_aget_not_mem (lookups : List CoverageLookups) :
    ∀ (entries : List (String × FnEntry)) (f0 : List (String × Nat)) (k : String),
    k ∉ entries.map Prod.fst → aget (mergeFnCounts lookups entries f0) k = aget f0 k := by
  intro entries
  induction entries with
  | nil => intro f0 k _; rfl
  | cons kv t ih =>
    intro f0 k hk
    simp only [List.map_cons, List.mem_cons] at hk
    push_neg at hk
    rw [mergeFnCounts_cons, ih _ k hk.2, aget_aset_ne _ _ _ _ hk.1]

theorem mergeFnCounts_aget (lookups : List CoverageLookups) :
    ∀ (entries : List (String × FnEntry)) (f0 : List (String × Nat)) (k : String)
    (fn : FnEntry), (entries.map Prod.fst).Nodup → (k, fn) ∈ entries →
    aget (mergeFnCounts lookups entries f0) k =
      some (maxCountOver
        (lookups.map (fun lk => lookupFnCount lk (locationKey fn.loc) (lineKey fn.loc)))
        ((aget f0 k).getD 0)) := by
  intro entries
  induction entries with
  | nil => intro f0 k fn _ hmem; simp at hmem
  | cons kv t ih =>
    intro f0 k fn hnd hmem
    simp only [List.map_cons, List.nodup_cons] at hnd
    rw [mergeFnCounts_cons]
    rcases List.mem_cons.1 hmem with heq | hmemt
    · have hk : kv.1 = k := by rw [← heq]
      have hloc : kv.2 = fn := by rw [← heq]
      have hknot : k ∉ t.map Prod.fst := hk ▸ hnd.1
      rw [mergeFnCounts_aget_not_mem lookups t _ k hknot, hk, hloc, aget_aset_self]
    · have hkmem : k ∈ t.map Prod.fst := List.mem_map_of_mem Prod.fst hmemt
      have hk : kv.1 ≠ k := fun hh => hnd.1 (hh ▸ hkmem)
      rw [ih _ k fn hnd.2 hmemt, aget_aset_ne _ _ _ _ (fun hh => hk hh.symm)]

theorem mergeBranchCounts_cons (lookups : List CoverageLookups) (kv : String × BranchEntry)
    (t : List (String × BranchEntry)) (b0 : List (String × List Nat)) :
    mergeBranchCounts lookups (kv :: t) b0 =
      mergeBranchCounts lookups t
        (match lastBranchMatch lookups (locationKey kv.2.loc) (lineKey kv.2.loc) with
         | some counts => aset b0 kv.1 (zipMaxPad ((aget b0 kv.1).getD []) counts)
         | none => b0) := rfl

theorem mergeBranchCounts_aget_not_mem (lookups : List CoverageLookups) :
    ∀ (entries : List (String × BranchEntry)) (b0 : List (String × List Nat)) (k : String),
    k ∉ entries.map Prod.fst → aget (mergeBranchCounts lookups entries b0) k = aget b0 k := by
  intro entries
  induction entries with
  | nil => intro b0 k _; rfl
  | cons kv t ih =>
    intro b0 k hk
    simp only [List.map_cons, List.mem_cons] at hk
    push_neg at hk
    rw [mergeBranchCounts_cons]
    cases hmatch : lastBranchMatch lookups (locationKey kv.2.loc) (lineKey kv.2.loc) with
    | none => exact ih _ k hk.2
    | some counts => rw [ih _ k hk.2, aget_aset_ne _ _ _ _ hk.1]

theorem mergeBranchCounts_aget (lookups : List CoverageLookups) :
    ∀ (entries : List (String × BranchEntry)) (b0 : List (String × List Nat)) (k : String)
    (br : BranchEntry), (entries.map Prod.fst).Nodup → (k, br) ∈ entries →
    aget (mergeBranchCounts lookups entries b0) k =
      (match lastBranchMatch lookups (locationKey br.loc) (lineKey br.loc) with
       | some counts => some (zipMaxPad ((aget b0 k).getD []) counts)
       | none => aget b0 k) := by
  intro entries
  induction entries with
  | nil => intro b0 k br _ hmem; simp at hmem
  | cons kv t ih =>
    intro b0 k br hnd hmem
    simp only [List.map_cons, List.nodup_cons] at hnd
    rw [mergeBranchCounts_cons]
    rcases List.mem_cons.1 hmem with heq | hmemt
    · have hk : kv.1 = k := by rw [← heq]
      have hloc : kv.2 = br := by rw [← heq]
      have hknot : k ∉ t.map Prod.fst := hk ▸ hnd.1
      rw [hk, hloc]
      cases hmatch : lastBranchMatch lookups (locationKey br.loc) (lineKey br.loc) with
      | none => exact mergeBranchCounts_aget_not_mem lookups t _ k hknot
      | some counts =>
        rw [mergeBranchCounts_aget_not_mem lookups t _ k hknot, aget_aset_self]
    · have hkmem : k ∈ t.map Prod.fst := List.mem_map_of_mem Prod.fst hmemt
      have hk : kv.1 ≠ k := fun hh => hnd.1 (hh ▸ hkmem)
      cases hmatch : lastBranchMatch lookups (locationKey kv.2.loc) (lineKey kv.2.loc) with
      | none => exact ih _ k br hnd.2 hmemt
      | some counts =>
        rw [ih _ k br hnd.2 hmemt, aget_aset_ne _ _ _ _ (fun hh => hk hh.symm)]

/-! ### Source-selection lemmas -/

theorem fst_le_of_mem_enumFrom {α : Type} :
    ∀ {n : Nat} {l : List α} {p : Nat × α}, p ∈ List.enumFrom n l → n ≤ p.1 := by
  intro n l
  induction l generalizing n with
  | nil => intro p hp; simp [List.enumFrom] at hp
  | cons a t ih =>
    intro p hp
    rcases List.mem_cons.1 hp with h | h
    · rw [h]
    · exact Nat.le_of_succ_le (ih h)

theorem pairwise_fst_lt_enumFrom {α : Type} :
    ∀ (n : Nat) (l : List α), (List.enumFrom n l).Pairwise (fun a b => a.1 < b.1) := by
  intro n l
  induction l generalizing n with
  | nil => simp [List.enumFrom]
  | cons a t ih =>
    refine List.Pairwise.cons ?_ (ih (n + 1))
    intro p hp
    exact Nat.lt_of_succ_le (fst_le_of_mem_enumFrom hp)

theorem pairwise_fst_lt_nonEmptyWithIndex (cs : List FileCoverageData) :
    (nonEmptyWithIndex cs).Pairwise (fun a b => a.1 < b.1) := by
  have h1 : (cs.enum).Pairwise (fun a b => a.1 < b.1) := pairwise_fst_lt_enumFrom 0 cs
  exact List.Pairwise.sublist (List.filter_sublist _) h1

theorem foldl_argmax_idx {α : Type} :
    ∀ (l : List (Nat × α)) (w : Nat × α),
    (l.foldl (fun best current => if best.1 < current.1 then current else best) w) ∈ w :: l ∧
    ∀ x ∈ w :: l,
      x.1 ≤ (l.foldl (fun best current => if best.1 < current.1 then current else best) w).1 := by
  intro l
  induction l with
  | nil =>
    intro w
    refine ⟨List.mem_singleton_self w, ?_⟩
    intro x hx
    rw [List.mem_singleton.1 hx]
    exact Nat.le_refl w.1
  | cons c t ih =>
    intro w
    simp only [List.foldl_cons]
    have hcases : (w.1 < c.1 ∧ (if w.1 < c.1 then c else w) = c) ∨
        (c.1 ≤ w.1 ∧ (if w.1 < c.1 then c else w) = w) := by
      by_cases hc : w.1 < c.1
      · exact Or.inl ⟨hc, if_pos hc⟩
      · exact Or.inr ⟨Nat.le_of_not_lt hc, if_neg hc⟩
    rcases hcases with ⟨hc, hcc⟩ | ⟨hc, hcc⟩ <;> rw [hcc] <;>
      obtain ⟨ihmem, ihle⟩ := ih (if w.1 < c.1 then c else w) <;> rw [hcc] at ihmem ihle
    · constructor
      · exact List.mem_cons_of_mem _ ihmem
      · intro x hx
        have hhead := ihle c (List.mem_cons_self _ _)
        rcases List.mem_cons.1 hx with h | h
        · exact h ▸ Nat.le_trans hc.le hhead
        · rcases List.mem_cons.1 h with h' | h'
          · exact h' ▸ hhead
          · exact ihle x (List.mem_cons_of_mem _ h')
    · constructor
      · rcases List.mem_cons.1 ihmem with h | h
        · rw [h]; exact List.mem_cons_self _ _
        · exact List.mem_cons_of_mem _ (List.mem_cons_of_mem _ h)
      · intro x hx
        have hhead := ihle w (List.mem_cons_self _ _)
        rcases List.mem_cons.1 hx with h | h
        · exact h ▸ hhead
        · rcases List.mem_cons.1 h with h' | h'
          · exact h' ▸ Nat.le_trans hc hhead
          · exact ihle x (List.mem_cons_of_mem _ h')

theorem foldl_argmin_first {α : Type} (g : Nat × α → Nat) :
    ∀ (l : List (Nat × α)) (w : Nat × α),
    ((w :: l).Pairwise (fun a b => a.1 < b.1)) →
    (l.foldl (fun best current => if g current < g best then current else best) w) ∈ w :: l ∧
    (∀ x ∈ w :: l,
      g (l.foldl (fun best current => if g current < g best then current else best) w) ≤ g x) ∧
    (∀ x ∈ w :: l,
      g x = g (l.foldl (fun best current => if g current < g best then current else best) w) →
      (l.foldl (fun best current => if g current < g best then current else best) w).1 ≤ x.1) := by
  intro l
  induction l with
  | nil =>
    intro w _
    refine ⟨List.mem_singleton_self w, ?_, ?_⟩
    · intro x hx
      rw [List.mem_singleton.1 hx]
      exact Nat.le_refl _
    · intro x hx _
      rw [List.mem_singleton.1 hx]
      exact Nat.le_refl _
  | cons c t ih =>
    intro w hp
    simp only [List.foldl_cons]
    have hpw : ∀ x ∈ c :: t, w.1 < x.1 := fun x hx => List.rel_of_pairwise_cons hp hx
    have hpt : (c :: t).Pairwise (fun a b => a.1 < b.1) := hp.of_cons
    have hcases : (g c < g w ∧ (if g c < g w then c else w) = c) ∨
        (g w ≤ g c ∧ (if g c < g w then c else w) = w) := by
      by_cases hc : g c < g w
      · exact Or.inl ⟨hc, if_pos hc⟩
      · exact Or.inr ⟨Nat.le_of_not_lt hc, if_neg hc⟩
    have hp2 : ((if g c < g w then c else w) :: t).Pairwise (fun a b => a.1 < b.1) := by
      rcases hcases with ⟨_, hcc⟩ | ⟨_, hcc⟩ <;> rw [hcc]
      · exact hpt
      · refine List.Pairwise.cons ?_ hpt.of_cons
        intro x hx
        exact hpw x (List.mem_cons_of_mem _ hx)
    obtain ⟨ihmem, ihmin, ihfirst⟩ := ih (if g c < g w then c else w) hp2
    rcases hcases with ⟨hc, hcc⟩ | ⟨hc, hcc⟩ <;> rw [hcc] at ihmem ihmin ihfirst ⊢
    · -- the new incumbent is c (strictly better than w)
      refine ⟨List.mem_cons_of_mem _ ihmem, ?_, ?_⟩
      · intro x hx
        have hhead := ihmin c (List.mem_cons_self _ _)
        rcases List.mem_cons.1 hx with h | h
        · exact h ▸ Nat.le_trans hhead hc.le
        · exact ihmin x h
      · intro x hx hgx
        rcases List.mem_cons.1 hx with h | h
        · exfalso
          have hhead := ihmin c (List.mem_cons_self _ _)
          have hlt : g (t.foldl (fun best current => if g current < g best then current else best) c)
              < g x := by
            rw [h]
            exact Nat.lt_of_le_of_lt hhead hc
          rw [hgx] at hlt
          exact Nat.lt_irrefl _ hlt
        · exact ihfirst x h hgx
    · -- the incumbent w stays (g w ≤ g c)
      refine ⟨?_, ?_, ?_⟩
      · rcases List.mem_cons.1 ihmem with h | h
        · rw [h]; exact List.mem_cons_self _ _
        · exact List.mem_cons_of_mem _ (List.mem_cons_of_mem _ h)
      · intro x hx
        have hhead := ihmin w (List.mem_cons_self _ _)
        rcases List.mem_cons.1 hx with h | h
        · exact h ▸ hhead
        · rcases List.mem_cons.1 h with h' | h'
          · exact h' ▸ Nat.le_trans hhead hc
          · exact ihmin x (List.mem_cons_of_mem _ h')
      · intro x hx hgx
        rcases List.mem_cons.1 hx with h | h
        · exact ihfirst x (h ▸ List.mem_cons_self _ _) hgx
        · rcases List.mem_cons.1 h with h' | h'
          · -- x = c ties the minimum: the fold result's value equals g w, whose index is smaller
            have hhead := ihmin w (List.mem_cons_self _ _)
            have hgw : g w = g (t.foldl
                (fun best current => if g current < g best then current else best) w) := by
              refine Nat.le_antisymm ?_ hhead
              rw [← hgx, h']
              exact hc
            have hR1 := ihfirst w (List.mem_cons_self _ _) hgw
            have hcx : w.1 < x.1 := hpw x h
            exact Nat.le_of_lt (Nat.lt_of_le_of_lt hR1 hcx)
          · exact ihfirst x (List.mem_cons_of_mem _ h') hgx

theorem selectBestSource_of_single (cs : List FileCoverageData) (single : Nat × FileCoverageData)
    (hns : nonEmptyWithIndex cs = [single]) : selectBestSource cs = some single.2 := by
  unfold selectBestSource
  rw [hns]

theorem selectBestSource_of_two_all_directive (cs : List FileCoverageData)
    (p q : Nat × FileCoverageData) (rest : List (Nat × FileCoverageData))
    (hns : nonEmptyWithIndex cs = p :: q :: rest)
    (hfl : (p :: q :: rest).filter (fun item => !hasL1Directive item.2) = []) :
    selectBestSource cs = some (((q :: rest).foldl (fun best current =>
      if getTotalItems current.2 < getTotalItems best.2 then current else best) p).2) := by
  unfold selectBestSource
  rw [hns]
  show (match (p :: q :: rest).filter (fun item => !hasL1Directive item.2) with
    | w :: ws =>
      some ((ws.foldl (fun best current : Nat × FileCoverageData =>
        if best.1 < current.1 then current else best) w).2)
    | [] => some (((q :: rest).foldl (fun best current : Nat × FileCoverageData =>
        if getTotalItems current.2 < getTotalItems best.2 then current else best) p).2)) = _
  rw [hfl]

theorem selectBestSource_of_two_without (cs : List FileCoverageData)
    (p q : Nat × FileCoverageData) (rest : List (Nat × FileCoverageData))
    (w : Nat × FileCoverageData) (ws : List (Nat × FileCoverageData))
    (hns : nonEmptyWithIndex cs = p :: q :: rest)
    (hfl : (p :: q :: rest).filter (fun item => !hasL1Directive item.2) = w :: ws) :
    selectBestSource cs =
      some ((ws.foldl (fun best current => if best.1 < current.1 then current else best) w).2) := by
  unfold selectBestSource
  rw [hns]
  show (match (p :: q :: rest).filter (fun item => !hasL1Directive item.2) with
    | w :: ws =>
      some ((ws.foldl (fun best current : Nat × FileCoverageData =>
        if best.1 < current.1 then current else best) w).2)
    | [] => some (((q :: rest).foldl (fun best current : Nat × FileCoverageData =>
        if getTotalItems current.2 < getTotalItems best.2 then current else best) p).2)) = _
  rw [hfl]

/-- C3: for a non-empty input with at least one nonzero-item candidate, the
selection policy of `selectBestSource`: if some nonzero-item candidate lacks the
line-1 pseudo-statement, the result is the one with the greatest original index
among those lacking it; if all have it, the result is one with the fewest total
items. -/
theorem c3_selectBestSource_policy (cs : List FileCoverageData)
    (hne : nonEmptyWithIndex cs ≠ []) :
    ∃ r, selectBestSource cs = some r ∧
      ((∃ p ∈ nonEmptyWithIndex cs, hasL1Directive p.2 = false) →
        ∃ p ∈ nonEmptyWithIndex cs, hasL1Directive p.2 = false ∧ r = p.2 ∧
          ∀ q ∈ nonEmptyWithIndex cs, hasL1Directive q.2 = false → q.1 ≤ p.1) ∧
      ((∀ p ∈ nonEmptyWithIndex cs, hasL1Directive p.2 = true) →
        ∃ p ∈ nonEmptyWithIndex cs, r = p.2 ∧
          ∀ q ∈ nonEmptyWithIndex cs, getTotalItems p.2 ≤ getTotalItems q.2) := by
  rcases hns : nonEmptyWithIndex cs with _ | ⟨p, _ | ⟨q, rest⟩⟩
  · exact absurd hns hne
  · refine ⟨p.2, selectBestSource_of_single cs p hns, ?_, ?_⟩
    · rintro ⟨x, hx, hdir⟩
      obtain rfl := List.mem_singleton.1 hx
      refine ⟨x, List.mem_singleton_self x, hdir, rfl, ?_⟩
      intro z hz _
      rw [List.mem_singleton.1 hz]
    · intro _
      refine ⟨p, List.mem_singleton_self p, rfl, ?_⟩
      intro z hz
      rw [List.mem_singleton.1 hz]
  · have hpair : (p :: q :: rest).Pairwise (fun a b => a.1 < b.1) := by
      rw [← hns]; exact pairwise_fst_lt_nonEmptyWithIndex cs
    rcases hfl : (p :: q :: rest).filter (fun item => !hasL1Directive item.2) with _ | ⟨w, ws⟩
    · have hsel := selectBestSource_of_two_all_directive cs p q rest hns hfl
      obtain ⟨hmem, hmin, _⟩ :=
        foldl_argmin_first (fun x => getTotalItems x.2) (q :: rest) p hpair
      refine ⟨_, hsel, ?_, ?_⟩
      · rintro ⟨x, hx, hdir⟩
        exfalso
        have hxf : x ∈ (p :: q :: rest).filter (fun item => !hasL1Directive item.2) :=
          List.mem_filter.2 ⟨hx, by simp [hdir]⟩
        rw [hfl] at hxf
        simp at hxf
      · intro _
        exact ⟨_, hmem, rfl, fun z hz => hmin z hz⟩
    · have hsel := selectBestSource_of_two_without cs p q rest w ws hns hfl
      obtain ⟨hmem, hle⟩ := foldl_argmax_idx ws w
      have hRf : (ws.foldl (fun best current => if best.1 < current.1 then current else best) w)
          ∈ (p :: q :: rest).filter (fun item => !hasL1Directive item.2) := by
        rw [hfl]; exact hmem
      obtain ⟨hRmem, hRdir⟩ := List.mem_filter.1 hRf
      refine ⟨_, hsel, ?_, ?_⟩
      · intro _
        refine ⟨_, hRmem, ?_, rfl, ?_⟩
        · simpa using hRdir
        · intro z hz hzdir
          have hzf : z ∈ (p :: q :: rest).filter (fun item => !hasL1Directive item.2) :=
            List.mem_filter.2 ⟨hz, by simp [hzdir]⟩
          rw [hfl] at hzf
          exact hle z hzf
      · intro hall
        exfalso
        have hwf : w ∈ (p :: q :: rest).filter (fun item => !hasL1Directive item.2) := by
          rw [hfl]; exact List.mem_cons_self _ _
        obtain ⟨hwmem, hwdir⟩ := List.mem_filter.1 hwf
        have hdir := hall w hwmem
        rw [hdir] at hwdir
        simp at hwdir

/-- C10: when every nonzero-item candidate has the line-1 pseudo-statement and
two or more tie for the fewest total items, `selectBestSource` returns the
earliest minimizer in original input order (strict less-than keeps the
incumbent). -/
theorem c10_fewest_items_tie_earliest (cs : List FileCoverageData)
    (hne : nonEmptyWithIndex cs ≠ [])
    (hall : ∀ p ∈ nonEmptyWithIndex cs, hasL1Directive p.2 = true)
    (htie : ∃ p ∈ nonEmptyWithIndex cs, ∃ q ∈ nonEmptyWithIndex cs,
      p.1 ≠ q.1 ∧ getTotalItems p.2 = getTotalItems q.2 ∧
      ∀ x ∈ nonEmptyWithIndex cs, getTotalItems p.2 ≤ getTotalItems x.2) :
    ∃ p ∈ nonEmptyWithIndex cs, selectBestSource cs = some p.2 ∧
      (∀ q ∈ nonEmptyWithIndex cs, getTotalItems p.2 ≤ getTotalItems q.2) ∧
      (∀ q ∈ nonEmptyWithIndex cs, getTotalItems q.2 = getTotalItems p.2 → p.1 ≤ q.1) := by
  rcases hns : nonEmptyWithIndex cs with _ | ⟨p, _ | ⟨q, rest⟩⟩
  · exact absurd hns hne
  · exfalso
    obtain ⟨x, hx, y, hy, hxy, _, _⟩ := htie
    rw [hns] at hx hy
    have h1 := List.mem_singleton.1 hx
    have h2 := List.mem_singleton.1 hy
    exact hxy (by rw [h1, h2])
  · have hpair : (p :: q :: rest).Pairwise (fun a b => a.1 < b.1) := by
      rw [← hns]; exact pairwise_fst_lt_nonEmptyWithIndex cs
    have hfl : (p :: q :: rest).filter (fun item => !hasL1Directive item.2) = [] := by
      rw [List.filter_eq_nil_iff]
      intro a ha
      have hd := hall a (by rw [hns]; exact ha)
      simp [hd]
    have hsel := selectBestSource_of_two_all_directive cs p q rest hns hfl
    obtain ⟨hmem, hmin, hfirst⟩ :=
      foldl_argmin_first (fun x => getTotalItems x.2) (q :: rest) p hpair
    exact ⟨_, hmem, hsel, fun z hz => hmin z hz, fun z hz hzeq => hfirst z hz hzeq⟩

/-- Witness for C3 at a concrete input: three nonzero-item sources, the first
with a line-1 pseudo-statement, the last two without. -/
theorem c3_selectBestSource_policy_witness :
    (nonEmptyWithIndex [exDir, exA, exB] ≠ []) ∧
    (∃ r, selectBestSource [exDir, exA, exB] = some r ∧
      ((∃ p ∈ nonEmptyWithIndex [exDir, exA, exB], hasL1Directive p.2 = false) →
        ∃ p ∈ nonEmptyWithIndex [exDir, exA, exB], hasL1Directive p.2 = false ∧ r = p.2 ∧
          ∀ q ∈ nonEmptyWithIndex [exDir, exA, exB], hasL1Directive q.2 = false → q.1 ≤ p.1) ∧
      ((∀ p ∈ nonEmptyWithIndex [exDir, exA, exB], hasL1Directive p.2 = true) →
        ∃ p ∈ nonEmptyWithIndex [exDir, exA, exB], r = p.2 ∧
          ∀ q ∈ nonEmptyWithIndex [exDir, exA, exB], getTotalItems p.2 ≤ getTotalItems q.2)) :=
  ⟨by decide, c3_selectBestSource_policy [exDir, exA, exB] (by decide)⟩

/-- Witness for C10 at a concrete input: two sources, both with a line-1
pseudo-statement and identical item totals, tying for the fewest items. -/
theorem c10_fewest_items_tie_earliest_witness :
    (nonEmptyWithIndex [exDir, exDir2] ≠ []) ∧
    (∀ p ∈ nonEmptyWithIndex [exDir, exDir2], hasL1Directive p.2 = true) ∧
    (∃ p ∈ nonEmptyWithIndex [exDir, exDir2], ∃ q ∈ nonEmptyWithIndex [exDir, exDir2],
      p.1 ≠ q.1 ∧ getTotalItems p.2 = getTotalItems q.2 ∧
      ∀ x ∈ nonEmptyWithIndex [exDir, exDir2], getTotalItems p.2 ≤ getTotalItems x.2) ∧
    (∃ p ∈ nonEmptyWithIndex [exDir, exDir2], selectBestSource [exDir, exDir2] = some p.2 ∧
      (∀ q ∈ nonEmptyWithIndex [exDir, exDir2], getTotalItems p.2 ≤ getTotalItems q.2) ∧
      (∀ q ∈ nonEmptyWithIndex [exDir, exDir2],
        getTotalItems q.2 = getTotalItems p.2 → p.1 ≤ q.1)) :=
  ⟨by decide, by decide, by decide,
    c10_fewest_items_tie_earliest [exDir, exDir2] (by decide) (by decide) (by decide)⟩

/-- C1 (failing-input evaluation): merging `[exA, exB]` selects `exB` (no
line-1 pseudo-statement, greatest index) as the baseline, and the merged branch
counts for id "0" are `[0, 7]`: the branch loop captured `baseCounts` before the
per-source loop, so each matching source overwrites the previous write and only
the last match (`exB` itself) survives, discarding `exA`'s count 5 at index 0.
The elementwise running maximum over all matching sources stated by the claim
would be `[5, 7]`, as the last conjunct shows. -/
theorem c1_branch_merge_last_match_eval :
    selectBestSource [exA, exB] = some exB ∧
    mergeFileCoverages [exA, exB] = some exMerged ∧
    aget exMerged.b "0" = some [0, 7] ∧
    zipMaxPad (bCounts exB "0") (bCounts exA "0") = [5, 7] := by decide

/-! ### buildLookups invariants -/

theorem omax_none_right (o : Option Nat) : omax o none = o := by
  cases o <;> rfl

theorem omax_assoc (a b c : Option Nat) : omax (omax a b) c = omax a (omax b c) := by
  cases a <;> cases b <;> cases c <;> simp [omax, Nat.max_assoc]

theorem omax_getD_max (o : Option Nat) (c : Nat) :
    some (max (o.getD 0) c) = omax o (some c) := by
  cases o <;> simp [omax]

theorem max?_cons_omax (c : Nat) (cs : List Nat) :
    (c :: cs).max? = omax (some c) cs.max? := by
  cases cs with
  | nil => rfl
  | cons d ds =>
    show some ((d :: ds).foldl max c) = omax (some c) (some (ds.foldl max d))
    simp only [omax, List.foldl_cons]
    rw [foldl_max_init ds (max c d), foldl_max_init ds d]
    simp [Nat.max_assoc]

theorem stmtFold_byLine (d : FileCoverageData) :
    ∀ (l : List (String × Location)) (acc : List (String × Nat) × List (Nat × Nat)) (line : Nat),
    aget (l.foldl (stmtStep d) acc).2 line =
      omax (aget acc.2 line)
        (((l.filter (fun kv => decide (0 < sCount d kv.1) && (lineKey kv.2 == line))).map
          (fun kv => sCount d kv.1)).max?) := by
  intro l
  induction l with
  | nil =>
    intro acc line
    simp [omax_none_right]
  | cons kv t ih =>
    intro acc line
    rw [List.foldl_cons, List.filter_cons]
    by_cases hc : 0 < sCount d kv.1
    · have hstep : stmtStep d acc kv =
          (aset acc.1 (locationKey kv.2) (sCount d kv.1),
           aset acc.2 (lineKey kv.2)
             (max ((aget acc.2 (lineKey kv.2)).getD 0) (sCount d kv.1))) := by
        simp [stmtStep, hc]
      by_cases hl : lineKey kv.2 = line
      · have hcond : (decide (0 < sCount d kv.1) && (lineKey kv.2 == line)) = true := by
          simp [hc, hl]
        rw [if_pos hcond, List.map_cons, max?_cons_omax, ih, hstep]
        show omax (aget (aset acc.2 (lineKey kv.2)
            (max ((aget acc.2 (lineKey kv.2)).getD 0) (sCount d kv.1))) line) _ = _
        rw [← hl, aget_aset_self, omax_getD_max, omax_assoc]
      · have hcond : (decide (0 < sCount d kv.1) && (lineKey kv.2 == line)) = false := by
          simp [hl]
        rw [if_neg (by simp [hcond] : ¬_), ih, hstep]
        show omax (aget (aset acc.2 (lineKey kv.2)
            (max ((aget acc.2 (lineKey kv.2)).getD 0) (sCount d kv.1))) line) _ = _
        rw [aget_aset_ne _ _ _ _ (fun hh => hl hh.symm)]
    · have hstep : stmtStep d acc kv = acc := by
        simp [stmtStep, hc]
      have hcond : (decide (0 < sCount d kv.1) && (lineKey kv.2 == line)) = false := by
        simp [hc]
      rw [if_neg (by simp [hcond] : ¬_), ih, hstep]

theorem fnFold_byLine (d : FileCoverageData) :
    ∀ (l : List (String × FnEntry)) (acc : List (String × Nat) × List (Nat × Nat)) (line : Nat),
    aget (l.foldl (fnStep d) acc).2 line =
      omax (aget acc.2 line)
        (((l.filter (fun kv => decide (0 < fCount d kv.1) && (lineKey kv.2.loc == line))).map
          (fun kv => fCount d kv.1)).max?) := by
  intro l
  induction l with
  | nil =>
    intro acc line
    simp [omax_none_right]
  | cons kv t ih =>
    intro acc line
    rw [List.foldl_cons, List.filter_cons]
    by_cases hc : 0 < fCount d kv.1
    · have hstep : fnStep d acc kv =
          (aset acc.1 (locationKey kv.2.loc) (fCount d kv.1),
           aset acc.2 (lineKey kv.2.loc)
             (max ((aget acc.2 (lineKey kv.2.loc)).getD 0) (fCount d kv.1))) := by
        simp [fnStep, hc]
      by_cases hl : lineKey kv.2.loc = line
      · have hcond : (decide (0 < fCount d kv.1) && (lineKey kv.2.loc == line)) = true := by
          simp [hc, hl]
        rw [if_pos hcond, List.map_cons, max?_cons_omax, ih, hstep]
        show omax (aget (aset acc.2 (lineKey kv.2.loc)
            (max ((aget acc.2 (lineKey kv.2.loc)).getD 0) (fCount d kv.1))) line) _ = _
        rw [← hl, aget_aset_self, omax_getD_max, omax_assoc]
      · have hcond : (decide (0 < fCount d kv.1) && (lineKey kv.2.loc == line)) = false := by
          simp [hl]
        rw [if_neg (by simp [hcond] : ¬_), ih, hstep]
        show omax (aget (aset acc.2 (lineKey kv.2.loc)
            (max ((aget acc.2 (lineKey kv.2.loc)).getD 0) (fCount d kv.1))) line) _ = _
        rw [aget_aset_ne _ _ _ _ (fun hh => hl hh.symm)]
    · have hstep : fnStep d acc kv = acc := by
        simp [fnStep, hc]
      have hcond : (decide (0 < fCount d kv.1) && (lineKey kv.2.loc == line)) = false := by
        simp [hc]
      rw [if_neg (by simp [hcond] : ¬_), ih, hstep]

theorem aget_nil {K V : Type} [DecidableEq K] (k : K) : aget ([] : List (K × V)) k = none := rfl

theorem branchFold_byLine (d : FileCoverageData) :
    ∀ (l : List (String × BranchEntry))
    (acc : List (String × List Nat) × List (Nat × List Nat)) (line : Nat),
    (aget acc.2 line = none →
      aget (l.foldl (branchStep d) acc).2 line =
        (l.find? (fun kv =>
          (bCounts d kv.1).any (fun c => decide (0 < c)) && (lineKey kv.2.loc == line))).map
          (fun kv => bCounts d kv.1)) ∧
    (∀ v, aget acc.2 line = some v → aget (l.foldl (branchStep d) acc).2 line = some v) := by
  intro l
  induction l with
  | nil =>
    intro acc line
    exact ⟨fun h => h, fun v hv => hv⟩
  | cons kv t ih =>
    intro acc line
    rw [List.foldl_cons]
    by_cases hcz : (bCounts d kv.1).any (fun c => decide (0 < c)) = true
    · have hstep : branchStep d acc kv =
          (aset acc.1 (locationKey kv.2.loc) (bCounts d kv.1),
           if (aget acc.2 (lineKey kv.2.loc)).isSome then acc.2
           else aset acc.2 (lineKey kv.2.loc) (bCounts d kv.1)) := by
        simp [branchStep, hcz]
      by_cases hl : lineKey kv.2.loc = line
      · have hp : (fun kv : String × BranchEntry =>
            (bCounts d kv.1).any (fun c => decide (0 < c)) && (lineKey kv.2.loc == line)) kv
            = true := by simp [hcz, hl]
        constructor
        · intro hnone
          have hsome : (aget acc.2 (lineKey kv.2.loc)).isSome = false := by
            rw [hl, hnone]; rfl
          have hacc2 : (branchStep d acc kv).2 = aset acc.2 (lineKey kv.2.loc) (bCounts d kv.1) := by
            rw [hstep]
            show (if (aget acc.2 (lineKey kv.2.loc)).isSome then acc.2
              else aset acc.2 (lineKey kv.2.loc) (bCounts d kv.1)) = _
            rw [hsome]
            simp
          have hset : aget (branchStep d acc kv).2 line = some (bCounts d kv.1) := by
            rw [hacc2, ← hl, aget_aset_self]
          rw [(ih (branchStep d acc kv) line).2 (bCounts d kv.1) hset,
            @List.find?_cons_of_pos (String × BranchEntry) (fun kv : String × BranchEntry =>
              (bCounts d kv.1).any (fun c => decide (0 < c)) && (lineKey kv.2.loc == line)) kv t hp]
          rfl
        · intro v hv
          have hsome : (aget acc.2 (lineKey kv.2.loc)).isSome = true := by
            rw [hl, hv]; rfl
          have hacc2 : (branchStep d acc kv).2 = acc.2 := by
            rw [hstep]
            show (if (aget acc.2 (lineKey kv.2.loc)).isSome then acc.2
              else aset acc.2 (lineKey kv.2.loc) (bCounts d kv.1)) = _
            rw [hsome]
            simp
          exact (ih (branchStep d acc kv) line).2 v (by rw [hacc2]; exact hv)
      · have hp : ((bCounts d kv.1).any (fun c => decide (0 < c)) &&
            (lineKey kv.2.loc == line)) = false := by simp [hl]
        have hacc2 : aget (branchStep d acc kv).2 line = aget acc.2 line := by
          rw [hstep]
          show aget (if (aget acc.2 (lineKey kv.2.loc)).isSome then acc.2
            else aset acc.2 (lineKey kv.2.loc) (bCounts d kv.1)) line = _
          by_cases hs : (aget acc.2 (lineKey kv.2.loc)).isSome
          · rw [if_pos hs]
          · rw [if_neg hs, aget_aset_ne _ _ _ _ (fun hh => hl hh.symm)]
        constructor
        · intro hnone
          rw [(ih (branchStep d acc kv) line).1 (by rw [hacc2]; exact hnone),
            @List.find?_cons_of_neg (String × BranchEntry) (fun kv : String × BranchEntry =>
              (bCounts d kv.1).any (fun c => decide (0 < c)) && (lineKey kv.2.loc == line)) kv t (by simp [hp])]
        · intro v hv
          exact (ih (branchStep d acc kv) line).2 v (by rw [hacc2]; exact hv)
    · have hstep : branchStep d acc kv = acc := by
        simp [branchStep, hcz]
      have hp : ((bCounts d kv.1).any (fun c => decide (0 < c)) &&
          (lineKey kv.2.loc == line)) = false := by
        simp only [Bool.and_eq_false_iff]
        left
        simpa using hcz
      rw [hstep]
      constructor
      · intro hnone
        rw [(ih acc line).1 hnone,
          @List.find?_cons_of_neg (String × BranchEntry) (fun kv : String × BranchEntry =>
              (bCounts d kv.1).any (fun c => decide (0 < c)) && (lineKey kv.2.loc == line)) kv t (by simp [hp])]
      · intro v hv
        exact (ih acc line).2 v hv

theorem stmtFold_pos (d : FileCoverageData) :
    ∀ (l : List (String × Location)) (acc : List (String × Nat) × List (Nat × Nat)),
    (∀ k c, aget acc.1 k = some c → 0 < c) → (∀ n c, aget acc.2 n = some c → 0 < c) →
    (∀ k c, aget (l.foldl (stmtStep d) acc).1 k = some c → 0 < c) ∧
    (∀ n c, aget (l.foldl (stmtStep d) acc).2 n = some c → 0 < c) := by
  intro l
  induction l with
  | nil => intro acc h1 h2; exact ⟨h1, h2⟩
  | cons kv t ih =>
    intro acc h1 h2
    rw [List.foldl_cons]
    by_cases hc : 0 < sCount d kv.1
    · have hstep : stmtStep d acc kv =
          (aset acc.1 (locationKey kv.2) (sCount d kv.1),
           aset acc.2 (lineKey kv.2)
             (max ((aget acc.2 (lineKey kv.2)).getD 0) (sCount d kv.1))) := by
        simp [stmtStep, hc]
      refine ih (stmtStep d acc kv) ?_ ?_
      · intro k c hkc
        rw [hstep] at hkc
        rcases aget_aset_cases _ _ _ _ _ hkc with h | h
        · rw [h]; exact hc
        · exact h1 k c h
      · intro n c hnc
        rw [hstep] at hnc
        rcases aget_aset_cases _ _ _ _ _ hnc with h | h
        · rw [h]; exact Nat.lt_of_lt_of_le hc (Nat.le_max_right _ _)
        · exact h2 n c h
    · have hstep : stmtStep d acc kv = acc := by
        simp [stmtStep, hc]
      rw [hstep]
      exact ih acc h1 h2

theorem fnFold_pos (d : FileCoverageData) :
    ∀ (l : List (String × FnEntry)) (acc : List (String × Nat) × List (Nat × Nat)),
    (∀ k c, aget acc.1 k = some c → 0 < c) → (∀ n c, aget acc.2 n = some c → 0 < c) →
    (∀ k c, aget (l.foldl (fnStep d) acc).1 k = some c → 0 < c) ∧
    (∀ n c, aget (l.foldl (fnStep d) acc).2 n = some c → 0 < c) := by
  intro l
  induction l with
  | nil => intro acc h1 h2; exact ⟨h1, h2⟩
  | cons kv t ih =>
    intro acc h1 h2
    rw [List.foldl_cons]
    by_cases hc : 0 < fCount d kv.1
    · have hstep : fnStep d acc kv =
          (aset acc.1 (locationKey kv.2.loc) (fCount d kv.1),
           aset acc.2 (lineKey kv.2.loc)
             (max ((aget acc.2 (lineKey kv.2.loc)).getD 0) (fCount d kv.1))) := by
        simp [fnStep, hc]
      refine ih (fnStep d acc kv) ?_ ?_
      · intro k c hkc
        rw [hstep] at hkc
        rcases aget_aset_cases _ _ _ _ _ hkc with h | h
        · rw [h]; exact hc
        · exact h1 k c h
      · intro n c hnc
        rw [hstep] at hnc
        rcases aget_aset_cases _ _ _ _ _ hnc with h | h
        · rw [h]; exact Nat.lt_of_lt_of_le hc (Nat.le_max_right _ _)
        · exact h2 n c h
    · have hstep : fnStep d acc kv = acc := by
        simp [fnStep, hc]
      rw [hstep]
      exact ih acc h1 h2

theorem aget_nil_pos {K : Type} [DecidableEq K] :
    ∀ (k : K) (c : Nat), aget ([] : List (K × Nat)) k = some c → 0 < c := by
  intro k c h
  rw [aget_nil] at h
  exact Option.noConfusion h

theorem buildLookups_stmts_pos (d : FileCoverageData) (k : String) (c : Nat)
    (h : aget (buildLookups d).stmts k = some c) : 0 < c :=
  (stmtFold_pos d d.statementMap ([], []) aget_nil_pos aget_nil_pos).1 k c h

theorem buildLookups_stmtsByLine_pos (d : FileCoverageData) (n : Nat) (c : Nat)
    (h : aget (buildLookups d).stmtsByLine n = some c) : 0 < c :=
  (stmtFold_pos d d.statementMap ([], []) aget_nil_pos aget_nil_pos).2 n c h

theorem buildLookups_fns_pos (d : FileCoverageData) (k : String) (c : Nat)
    (h : aget (buildLookups d).fns k = some c) : 0 < c :=
  (fnFold_pos d d.fnMap ([], []) aget_nil_pos aget_nil_pos).1 k c h

theorem buildLookups_fnsByLine_pos (d : FileCoverageData) (n : Nat) (c : Nat)
    (h : aget (buildLookups d).fnsByLine n = some c) : 0 < c :=
  (fnFold_pos d d.fnMap ([], []) aget_nil_pos aget_nil_pos).2 n c h

/-- C5: for every file coverage record, the branch line-fallback map holds, per
line, the counts array of the first `branchMap` entry (in iteration order) on
that line with a nonzero count — first writer wins, later entries never replace
it — while the statement and function line-fallback maps hold the maximum
nonzero count seen on the line. -/
theorem c5_buildLookups_line_fallback (d : FileCoverageData) (line : Nat) :
    aget (buildLookups d).branchesByLine line =
      (d.branchMap.find? (fun kv =>
        (bCounts d kv.1).any (fun c => decide (0 < c)) && (lineKey kv.2.loc == line))).map
        (fun kv => bCounts d kv.1) ∧
    aget (buildLookups d).stmtsByLine line =
      ((d.statementMap.filter (fun kv =>
        decide (0 < sCount d kv.1) && (lineKey kv.2 == line))).map
        (fun kv => sCount d kv.1)).max? ∧
    aget (buildLookups d).fnsByLine line =
      ((d.fnMap.filter (fun kv =>
        decide (0 < fCount d kv.1) && (lineKey kv.2.loc == line))).map
        (fun kv => fCount d kv.1)).max? := by
  refine ⟨?_, ?_, ?_⟩
  · exact (branchFold_byLine d d.branchMap ([], []) line).1 rfl
  · exact stmtFold_byLine d d.statementMap ([], []) line
  · exact fnFold_byLine d d.fnMap ([], []) line

/-! ### mergeFileCoverages characterization -/

theorem mergeFileCoverages_eq (c0 c1 : FileCoverageData) (rest : List FileCoverageData)
    (best : FileCoverageData) (hbest : selectBestSource (c0 :: c1 :: rest) = some best) :
    mergeFileCoverages (c0 :: c1 :: rest) = some
      { path := c0.path
        statementMap := best.statementMap
        s := mergeStmtCounts ((c0 :: c1 :: rest).map buildLookups) best.statementMap best.s
        fnMap := best.fnMap
        f := mergeFnCounts ((c0 :: c1 :: rest).map buildLookups) best.fnMap best.f
        branchMap := best.branchMap
        b := mergeBranchCounts ((c0 :: c1 :: rest).map buildLookups) best.branchMap best.b } := by
  unfold mergeFileCoverages
  show ((match selectBestSource (c0 :: c1 :: rest) with
    | none => none
    | some bestSource =>
      let allLookups := (c0 :: c1 :: rest).map buildLookups
      some { path := c0.path
             statementMap := bestSource.statementMap
             s := mergeStmtCounts allLookups bestSource.statementMap bestSource.s
             fnMap := bestSource.fnMap
             f := mergeFnCounts allLookups bestSource.fnMap bestSource.f
             branchMap := bestSource.branchMap
             b := mergeBranchCounts allLookups bestSource.branchMap bestSource.b })
    : Option FileCoverageData) = _
  rw [hbest]

theorem filterMap_id_map {α β : Type} (g : α → Option β) (l : List α) :
    (l.map g).filterMap id = l.filterMap g := by
  rw [List.filterMap_map]
  rfl

/-- C2: in a merge of two or more records, every statement and function count of
the merged record is the maximum of the baseline's own count and the counts the
sources' lookups yield at the entry's exact key or, failing that, its line key;
this per-id count is unchanged under any permutation of the sources that keeps
the same selected baseline; and the lookups never hold a zero count (a source
that never executed a location is absent and cannot suppress another source's
nonzero count). -/
theorem c2_stmt_fn_count_max (c0 c1 : FileCoverageData) (rest : List FileCoverageData)
    (best merged : FileCoverageData)
    (hbest : selectBestSource (c0 :: c1 :: rest) = some best)
    (hm : mergeFileCoverages (c0 :: c1 :: rest) = some merged)
    (hndS : (best.statementMap.map Prod.fst).Nodup)
    (hndF : (best.fnMap.map Prod.fst).Nodup) :
    (∀ kv ∈ best.statementMap,
      aget merged.s kv.1 = some (max ((aget best.s kv.1).getD 0)
        ((((c0 :: c1 :: rest).map buildLookups).filterMap
          (fun lk => lookupStmtCount lk (locationKey kv.2) (lineKey kv.2))).foldl max 0))) ∧
    (∀ kv ∈ best.fnMap,
      aget merged.f kv.1 = some (max ((aget best.f kv.1).getD 0)
        ((((c0 :: c1 :: rest).map buildLookups).filterMap
          (fun lk => lookupFnCount lk (locationKey kv.2.loc) (lineKey kv.2.loc))).foldl max 0))) ∧
    (∀ (cs' : List FileCoverageData) (merged' : FileCoverageData),
      (c0 :: c1 :: rest).Perm cs' →
      selectBestSource cs' = some best →
      mergeFileCoverages cs' = some merged' →
      (∀ kv ∈ best.statementMap, aget merged'.s kv.1 = aget merged.s kv.1) ∧
      (∀ kv ∈ best.fnMap, aget merged'.f kv.1 = aget merged.f kv.1)) ∧
    (∀ (d : FileCoverageData) (k : String) (c : Nat),
      aget (buildLookups d).stmts k = some c → 0 < c) ∧
    (∀ (d : FileCoverageData) (n c : Nat),
      aget (buildLookups d).stmtsByLine n = some c → 0 < c) ∧
    (∀ (d : FileCoverageData) (k : String) (c : Nat),
      aget (buildLookups d).fns k = some c → 0 < c) ∧
    (∀ (d : FileCoverageData) (n c : Nat),
      aget (buildLookups d).fnsByLine n = some c → 0 < c) := by
  have hmr := mergeFileCoverages_eq c0 c1 rest best hbest
  rw [hm] at hmr
  obtain rfl := Option.some.inj hmr
  refine ⟨?_, ?_, ?_, buildLookups_stmts_pos, buildLookups_stmtsByLine_pos,
    buildLookups_fns_pos, buildLookups_fnsByLine_pos⟩
  · intro kv hkv
    have hmem : (kv.1, kv.2) ∈ best.statementMap := by rw [Prod.mk.eta]; exact hkv
    show aget (mergeStmtCounts ((c0 :: c1 :: rest).map buildLookups)
      best.statementMap best.s) kv.1 = _
    rw [mergeStmtCounts_aget _ best.statementMap best.s kv.1 kv.2 hndS hmem,
      maxCountOver_eq, filterMap_id_map]
  · intro kv hkv
    have hmem : (kv.1, kv.2) ∈ best.fnMap := by rw [Prod.mk.eta]; exact hkv
    show aget (mergeFnCounts ((c0 :: c1 :: rest).map buildLookups)
      best.fnMap best.f) kv.1 = _
    rw [mergeFnCounts_aget _ best.fnMap best.f kv.1 kv.2 hndF hmem,
      maxCountOver_eq, filterMap_id_map]
  · intro cs' merged' hperm hbest' hm'
    have hlen := hperm.length_eq
    rcases cs' with _ | ⟨x, _ | ⟨y, z⟩⟩
    · simp at hlen
    · simp at hlen
    · have hmr' := mergeFileCoverages_eq x y z best hbest'
      rw [hm'] at hmr'
      obtain rfl := Option.some.inj hmr'
      have hpl : ((c0 :: c1 :: rest).map buildLookups).Perm ((x :: y :: z).map buildLookups) :=
        hperm.map buildLookups
      constructor
      · intro kv hkv
        have hmem : (kv.1, kv.2) ∈ best.statementMap := by rw [Prod.mk.eta]; exact hkv
        show aget (mergeStmtCounts ((x :: y :: z).map buildLookups)
            best.statementMap best.s) kv.1 =
          aget (mergeStmtCounts ((c0 :: c1 :: rest).map buildLookups)
            best.statementMap best.s) kv.1
        rw [mergeStmtCounts_aget _ best.statementMap best.s kv.1 kv.2 hndS hmem,
          mergeStmtCounts_aget _ best.statementMap best.s kv.1 kv.2 hndS hmem]
        exact congrArg some (maxCountOver_perm
          (hpl.symm.map (fun lk => lookupStmtCount lk (locationKey kv.2) (lineKey kv.2))) _)
      · intro kv hkv
        have hmem : (kv.1, kv.2) ∈ best.fnMap := by rw [Prod.mk.eta]; exact hkv
        show aget (mergeFnCounts ((x :: y :: z).map buildLookups)
            best.fnMap best.f) kv.1 =
          aget (mergeFnCounts ((c0 :: c1 :: rest).map buildLookups)
            best.fnMap best.f) kv.1
        rw [mergeFnCounts_aget _ best.fnMap best.f kv.1 kv.2 hndF hmem,
          mergeFnCounts_aget _ best.fnMap best.f kv.1 kv.2 hndF hmem]
        exact congrArg some (maxCountOver_perm
          (hpl.symm.map (fun lk => lookupFnCount lk (locationKey kv.2.loc) (lineKey kv.2.loc))) _)

/-- C4: a merge of two or more records never decreases a count already present
in the selected baseline: every statement and function count, and every index of
every branch counts array, of the merged record is at least the baseline's value
(and branch arrays keep the baseline's length). -/
theorem c4_merge_never_decreases (c0 c1 : FileCoverageData) (rest : List FileCoverageData)
    (best merged : FileCoverageData)
    (hbest : selectBestSource (c0 :: c1 :: rest) = some best)
    (hm : mergeFileCoverages (c0 :: c1 :: rest) = some merged)
    (hndS : (best.statementMap.map Prod.fst).Nodup)
    (hndF : (best.fnMap.map Prod.fst).Nodup)
    (hndB : (best.branchMap.map Prod.fst).Nodup) :
    (∀ kv ∈ best.statementMap, (aget best.s kv.1).getD 0 ≤ (aget merged.s kv.1).getD 0) ∧
    (∀ kv ∈ best.fnMap, (aget best.f kv.1).getD 0 ≤ (aget merged.f kv.1).getD 0) ∧
    (∀ kv ∈ best.branchMap,
      ((aget merged.b kv.1).getD []).length = ((aget best.b kv.1).getD []).length ∧
      ∀ i : Nat, ((aget best.b kv.1).getD []).getD i 0 ≤ ((aget merged.b kv.1).getD []).getD i 0) := by
  have hmr := mergeFileCoverages_eq c0 c1 rest best hbest
  rw [hm] at hmr
  obtain rfl := Option.some.inj hmr
  refine ⟨?_, ?_, ?_⟩
  · intro kv hkv
    have hmem : (kv.1, kv.2) ∈ best.statementMap := by rw [Prod.mk.eta]; exact hkv
    show (aget best.s kv.1).getD 0 ≤ (aget (mergeStmtCounts
      ((c0 :: c1 :: rest).map buildLookups) best.statementMap best.s) kv.1).getD 0
    rw [mergeStmtCounts_aget _ best.statementMap best.s kv.1 kv.2 hndS hmem]
    exact le_maxCountOver _ _
  · intro kv hkv
    have hmem : (kv.1, kv.2) ∈ best.fnMap := by rw [Prod.mk.eta]; exact hkv
    show (aget best.f kv.1).getD 0 ≤ (aget (mergeFnCounts
      ((c0 :: c1 :: rest).map buildLookups) best.fnMap best.f) kv.1).getD 0
    rw [mergeFnCounts_aget _ best.fnMap best.f kv.1 kv.2 hndF hmem]
    exact le_maxCountOver _ _
  · intro kv hkv
    have hmem : (kv.1, kv.2) ∈ best.branchMap := by rw [Prod.mk.eta]; exact hkv
    have hchar := mergeBranchCounts_aget ((c0 :: c1 :: rest).map buildLookups)
      best.branchMap best.b kv.1 kv.2 hndB hmem
    show ((aget (mergeBranchCounts ((c0 :: c1 :: rest).map buildLookups)
        best.branchMap best.b) kv.1).getD []).length = _ ∧ ∀ i : Nat, _ ≤
      ((aget (mergeBranchCounts ((c0 :: c1 :: rest).map buildLookups)
        best.branchMap best.b) kv.1).getD []).getD i 0
    rw [hchar]
    cases hmatch : lastBranchMatch ((c0 :: c1 :: rest).map buildLookups)
        (locationKey kv.2.loc) (lineKey kv.2.loc) with
    | none =>
      exact ⟨rfl, fun i => Nat.le_refl _⟩
    | some counts =>
      refine ⟨?_, ?_⟩
      · show (zipMaxPad ((aget best.b kv.1).getD []) counts).length = _
        exact zipMaxPad_length _ _
      · intro i
        show ((aget best.b kv.1).getD []).getD i 0 ≤
          (zipMaxPad ((aget best.b kv.1).getD []) counts).getD i 0
        exact zipMaxPad_getD_le _ _ i

/-- Witness for C2 at a concrete input: `[exA, exB]`, baseline `exB`, merged
record `exMerged`. -/
theorem c2_stmt_fn_count_max_witness :
    (selectBestSource [exA, exB] = some exB ∧
     mergeFileCoverages [exA, exB] = some exMerged ∧
     (exB.statementMap.map Prod.fst).Nodup ∧
     (exB.fnMap.map Prod.fst).Nodup) ∧
    ((∀ kv ∈ exB.statementMap,
      aget exMerged.s kv.1 = some (max ((aget exB.s kv.1).getD 0)
        ((([exA, exB].map buildLookups).filterMap
          (fun lk => lookupStmtCount lk (locationKey kv.2) (lineKey kv.2))).foldl max 0))) ∧
    (∀ kv ∈ exB.fnMap,
      aget exMerged.f kv.1 = some (max ((aget exB.f kv.1).getD 0)
        ((([exA, exB].map buildLookups).filterMap
          (fun lk => lookupFnCount lk (locationKey kv.2.loc) (lineKey kv.2.loc))).foldl max 0))) ∧
    (∀ (cs' : List FileCoverageData) (merged' : FileCoverageData),
      ([exA, exB] : List FileCoverageData).Perm cs' →
      selectBestSource cs' = some exB →
      mergeFileCoverages cs' = some merged' →
      (∀ kv ∈ exB.statementMap, aget merged'.s kv.1 = aget exMerged.s kv.1) ∧
      (∀ kv ∈ exB.fnMap, aget merged'.f kv.1 = aget exMerged.f kv.1)) ∧
    (∀ (d : FileCoverageData) (k : String) (c : Nat),
      aget (buildLookups d).stmts k = some c → 0 < c) ∧
    (∀ (d : FileCoverageData) (n c : Nat),
      aget (buildLookups d).stmtsByLine n = some c → 0 < c) ∧
    (∀ (d : FileCoverageData) (k : String) (c : Nat),
      aget (buildLookups d).fns k = some c → 0 < c) ∧
    (∀ (d : FileCoverageData) (n c : Nat),
      aget (buildLookups d).fnsByLine n = some c → 0 < c)) :=
  ⟨⟨by decide, by decide, by decide, by decide⟩,
    c2_stmt_fn_count_max exA exB [] exB exMerged (by decide) (by decide) (by decide) (by decide)⟩

/-- Witness for C4 at a concrete input: `[exA, exB]`, baseline `exB`, merged
record `exMerged`. -/
theorem c4_merge_never_decreases_witness :
    (selectBestSource [exA, exB] = some exB ∧
     mergeFileCoverages [exA, exB] = some exMerged ∧
     (exB.statementMap.map Prod.fst).Nodup ∧
     (exB.fnMap.map Prod.fst).Nodup ∧
     (exB.branchMap.map Prod.fst).Nodup) ∧
    ((∀ kv ∈ exB.statementMap, (aget exB.s kv.1).getD 0 ≤ (aget exMerged.s kv.1).getD 0) ∧
    (∀ kv ∈ exB.fnMap, (aget exB.f kv.1).getD 0 ≤ (aget exMerged.f kv.1).getD 0) ∧
    (∀ kv ∈ exB.branchMap,
      ((aget exMerged.b kv.1).getD []).length = ((aget exB.b kv.1).getD []).length ∧
      ∀ i : Nat,
        ((aget exB.b kv.1).getD []).getD i 0 ≤ ((aget exMerged.b kv.1).getD []).getD i 0)) :=
  ⟨⟨by decide, by decide, by decide, by decide, by decide⟩,
    c4_merge_never_decreases exA exB [] exB exMerged (by decide) (by decide)
      (by decide) (by decide) (by decide)⟩

/-! ### Normalizer lemmas -/

theorem classify_foldl_append (lines : List String) :
    ∀ (l : List (String × Location)) (acc : List (String × Bool)),
    l.foldl (classifyStep lines) acc = acc ++ l.filterMap (pickRemoval lines) := by
  intro l
  induction l with
  | nil => intro acc; simp
  | cons kv t ih =>
    intro acc
    rw [List.foldl_cons, List.filterMap_cons]
    by_cases h1 : isImportLine (lineContentAt lines kv.2.start.line)
    · have hstep : classifyStep lines acc kv = acc ++ [(kv.1, true)] := by
        simp [classifyStep, h1]
      have hpick : pickRemoval lines kv = some (kv.1, true) := by
        simp [pickRemoval, h1]
      rw [hstep, hpick, ih]
      simp
    · by_cases h2 : isDirective (lineContentAt lines kv.2.start.line)
      · have hstep : classifyStep lines acc kv = acc ++ [(kv.1, false)] := by
          simp [classifyStep, h1, h2]
        have hpick : pickRemoval lines kv = some (kv.1, false) := by
          simp [pickRemoval, h1, h2]
        rw [hstep, hpick, ih]
        simp
      · have hstep : classifyStep lines acc kv = acc := by
          simp [classifyStep, h1, h2]
        have hpick : pickRemoval lines kv = none := by
          simp [pickRemoval, h1, h2]
        rw [hstep, hpick, ih]

theorem classifyKeysToRemove_eq (lines : List String) (stmtMap : List (String × Location)) :
    classifyKeysToRemove lines stmtMap = stmtMap.filterMap (pickRemoval lines) := by
  have h := classify_foldl_append lines stmtMap []
  simpa [classifyKeysToRemove] using h

theorem pickRemoval_fst (lines : List String) (kv : String × Location) (x : String × Bool)
    (h : pickRemoval lines kv = some x) : x.1 = kv.1 := by
  unfold pickRemoval at h
  by_cases h1 : isImportLine (lineContentAt lines kv.2.start.line)
  · simp [h1] at h
    rw [← h]
  · by_cases h2 : isDirective (lineContentAt lines kv.2.start.line)
    · simp [h1, h2] at h
      rw [← h]
    · simp [h1, h2] at h

theorem pickRemoval_isSome_iff (lines : List String) (kv : String × Location) :
    (pickRemoval lines kv).isSome = (isImportLine (lineContentAt lines kv.2.start.line) ||
      isDirective (lineContentAt lines kv.2.start.line)) := by
  unfold pickRemoval
  by_cases h1 : isImportLine (lineContentAt lines kv.2.start.line)
  · simp [h1]
  · by_cases h2 : isDirective (lineContentAt lines kv.2.start.line)
    · simp [h1, h2]
    · simp [h1, h2]

theorem isDirective_not_import (lc : String) (h : isImportLine lc = true) :
    isDirective lc = false := by
  cases hd : isDirective lc with
  | false => rfl
  | true =>
    exfalso
    simp only [isDirective, Bool.or_eq_true, beq_iff_eq] at hd
    rcases hd with (((((((h1 | h1) | h1) | h1) | h1) | h1) | h1) | h1) <;>
      (subst h1; exact absurd h (by decide))

theorem count_import_tags (lines : List String) :
    ∀ (l : List (String × Location)),
    ((l.filterMap (pickRemoval lines)).filter (fun kr => kr.2)).length =
      (l.filter (fun kv => isImportLine (lineContentAt lines kv.2.start.line))).length := by
  intro l
  induction l with
  | nil => rfl
  | cons kv t ih =>
    rw [List.filterMap_cons, List.filter_cons]
    by_cases h1 : isImportLine (lineContentAt lines kv.2.start.line)
    · have hpick : pickRemoval lines kv = some (kv.1, true) := by simp [pickRemoval, h1]
      rw [hpick, if_pos (by simp [h1])]
      simp only [List.filter_cons, List.length_cons]
      rw [if_pos (by simp)]
      simp [ih]
    · rw [if_neg (by simp [h1])]
      by_cases h2 : isDirective (lineContentAt lines kv.2.start.line)
      · have hpick : pickRemoval lines kv = some (kv.1, false) := by simp [pickRemoval, h1, h2]
        rw [hpick]
        simp only [List.filter_cons]
        rw [if_neg (by simp)]
        exact ih
      · have hpick : pickRemoval lines kv = none := by simp [pickRemoval, h1, h2]
        rw [hpick]
        exact ih

theorem count_directive_tags (lines : List String) :
    ∀ (l : List (String × Location)),
    ((l.filterMap (pickRemoval lines)).filter (fun kr => !kr.2)).length =
      (l.filter (fun kv => isDirective (lineContentAt lines kv.2.start.line))).length := by
  intro l
  induction l with
  | nil => rfl
  | cons kv t ih =>
    rw [List.filterMap_cons, List.filter_cons]
    by_cases h1 : isImportLine (lineContentAt lines kv.2.start.line)
    · have hpick : pickRemoval lines kv = some (kv.1, true) := by simp [pickRemoval, h1]
      have hnd : isDirective (lineContentAt lines kv.2.start.line) = false :=
        isDirective_not_import _ h1
      rw [hpick, if_neg (by simp [hnd])]
      simp only [List.filter_cons]
      rw [if_neg (by simp)]
      exact ih
    · by_cases h2 : isDirective (lineContentAt lines kv.2.start.line)
      · have hpick : pickRemoval lines kv = some (kv.1, false) := by simp [pickRemoval, h1, h2]
        rw [hpick, if_pos (by simp [h2])]
        simp only [List.filter_cons, List.length_cons]
        rw [if_pos (by simp)]
        simp [ih]
      · have hpick : pickRemoval lines kv = none := by simp [pickRemoval, h1, h2]
        rw [hpick, if_neg (by simp [h2])]
        exact ih

theorem classify_keys_eq_filter_keys (lines : List String) :
    ∀ (l : List (String × Location)),
    (l.filterMap (pickRemoval lines)).map Prod.fst =
      (l.filter (fun kv => isImportLine (lineContentAt lines kv.2.start.line) ||
        isDirective (lineContentAt lines kv.2.start.line))).map Prod.fst := by
  intro l
  induction l with
  | nil => rfl
  | cons kv t ih =>
    rw [List.filterMap_cons, List.filter_cons]
    by_cases h1 : isImportLine (lineContentAt lines kv.2.start.line)
    · have hpick : pickRemoval lines kv = some (kv.1, true) := by simp [pickRemoval, h1]
      rw [hpick, if_pos (by simp [h1])]
      simp [ih]
    · by_cases h2 : isDirective (lineContentAt lines kv.2.start.line)
      · have hpick : pickRemoval lines kv = some (kv.1, false) := by simp [pickRemoval, h1, h2]
        rw [hpick, if_pos (by simp [h2])]
        simp [ih]
      · have hpick : pickRemoval lines kv = none := by simp [pickRemoval, h1, h2]
        rw [hpick, if_neg (by simp [h1, h2])]
        exact ih

theorem normalizeFileCoverage_some_eq (lines : List String) (d : FileCoverageData)
    (hne : lines ≠ []) :
    normalizeFileCoverage (some lines) d =
      { fileData := { d with
          statementMap := d.statementMap.filter (fun kv =>
            !(((classifyKeysToRemove lines d.statementMap).map Prod.fst).contains kv.1))
          s := d.s.filter (fun kv =>
            !(((classifyKeysToRemove lines d.statementMap).map Prod.fst).contains kv.1)) }
        importsRemoved :=
          ((classifyKeysToRemove lines d.statementMap).filter (fun kr => kr.2)).length
        directivesRemoved :=
          ((classifyKeysToRemove lines d.statementMap).filter (fun kr => !kr.2)).length } := by
  have hlen : ¬ lines.length = 0 := by
    intro h
    exact hne (List.length_eq_zero.1 h)
  simp [normalizeFileCoverage, hlen]

/-- C8: a record whose source text is unavailable (missing path or read failure)
is left entirely unchanged by normalization and contributes zero to both
removal counters; the failure is absorbed, not propagated (the function returns
normally). At the map level the record reappears unchanged in the output. -/
theorem c8_unreadable_source_skipped :
    (∀ d : FileCoverageData, normalizeFileCoverage none d =
      { fileData := d, importsRemoved := 0, directivesRemoved := 0 }) ∧
    (∀ (src : String → Option (List String)) (m : CoverageMapData)
      (kv : String × FileCoverageData), kv ∈ m → src kv.1 = none →
      kv ∈ (normalizeCoverage src m).coverageMap) := by
  constructor
  · intro d; rfl
  · intro src m kv hmem hsrc
    show kv ∈ (m.map (fun kv : String × FileCoverageData =>
        (kv.1, normalizeFileCoverage (src kv.1) kv.2))).map
      (fun kv : String × NormalizeFileResult => (kv.1, kv.2.fileData))
    rw [List.map_map]
    have himg : ((fun kv : String × FileCoverageData =>
        (kv.1, (normalizeFileCoverage (src kv.1) kv.2).fileData)) kv) = kv := by
      show (kv.1, (normalizeFileCoverage (src kv.1) kv.2).fileData) = kv
      rw [hsrc]
      exact Prod.mk.eta
    have := List.mem_map_of_mem ((fun kv : String × NormalizeFileResult =>
      (kv.1, kv.2.fileData)) ∘ (fun kv : String × FileCoverageData =>
        (kv.1, normalizeFileCoverage (src kv.1) kv.2))) hmem
    simpa [Function.comp, himg] using this

/-- Witness for C8 at a concrete input. -/
theorem c8_unreadable_source_skipped_witness :
    (("/only.ts", exA) ∈ exMapX ∧ (fun _ : String => (none : Option (List String))) "/only.ts"
      = none) ∧
    (normalizeFileCoverage none exA =
      { fileData := exA, importsRemoved := 0, directivesRemoved := 0 } ∧
     ("/only.ts", exA) ∈ (normalizeCoverage (fun _ => none) exMapX).coverageMap) :=
  ⟨⟨by decide, rfl⟩,
    ⟨c8_unreadable_source_skipped.1 exA,
     c8_unreadable_source_skipped.2 (fun _ => none) exMapX ("/only.ts", exA) (by decide) rfl⟩⟩

theorem normalizeFileCoverage_of_classify_nil (lines : List String) (d : FileCoverageData)
    (hne : lines ≠ []) (hcl : classifyKeysToRemove lines d.statementMap = []) :
    normalizeFileCoverage (some lines) d =
      { fileData := d, importsRemoved := 0, directivesRemoved := 0 } := by
  rw [normalizeFileCoverage_some_eq lines d hne, hcl]
  have h1 : d.statementMap.filter (fun kv =>
      !((([] : List (String × Bool)).map Prod.fst).contains kv.1)) = d.statementMap :=
    List.filter_eq_self.2 (fun a _ => rfl)
  have h2 : d.s.filter (fun kv =>
      !((([] : List (String × Bool)).map Prod.fst).contains kv.1)) = d.s :=
    List.filter_eq_self.2 (fun a _ => rfl)
  rw [h1, h2]
  rfl

theorem normalizeFileCoverage_idem (lines? : Option (List String)) (d : FileCoverageData) :
    normalizeFileCoverage lines? (normalizeFileCoverage lines? d).fileData =
      { fileData := (normalizeFileCoverage lines? d).fileData
        importsRemoved := 0, directivesRemoved := 0 } := by
  cases lines? with
  | none => rfl
  | some lines =>
    by_cases hne : lines = []
    · subst hne
      rfl
    · have hfd : (normalizeFileCoverage (some lines) d).fileData = { d with
          statementMap := d.statementMap.filter (fun kv =>
            !(((classifyKeysToRemove lines d.statementMap).map Prod.fst).contains kv.1))
          s := d.s.filter (fun kv =>
            !(((classifyKeysToRemove lines d.statementMap).map Prod.fst).contains kv.1)) } := by
        rw [normalizeFileCoverage_some_eq lines d hne]
      have hcl : classifyKeysToRemove lines
          (d.statementMap.filter (fun kv =>
            !(((classifyKeysToRemove lines d.statementMap).map Prod.fst).contains kv.1))) = [] := by
        rw [classifyKeysToRemove_eq, List.filterMap_eq_nil_iff]
        intro a ha
        obtain ⟨hamem, hapred⟩ := List.mem_filter.1 ha
        cases hpick : pickRemoval lines a with
        | none => rfl
        | some x =>
          exfalso
          have hx : x ∈ d.statementMap.filterMap (pickRemoval lines) :=
            List.mem_filterMap.2 ⟨a, hamem, hpick⟩
          have hx1 : a.1 ∈ (classifyKeysToRemove lines d.statementMap).map Prod.fst := by
            rw [classifyKeysToRemove_eq]
            exact (pickRemoval_fst lines a x hpick) ▸ List.mem_map_of_mem Prod.fst hx
          have hcont : ((classifyKeysToRemove lines d.statementMap).map Prod.fst).contains a.1
              = true := List.elem_eq_true_of_mem hx1
          rw [hcont] at hapred
          simp at hapred
      rw [hfd]
      exact normalizeFileCoverage_of_classify_nil lines _ hne hcl

/-- C9: normalization is idempotent with respect to deletions: a second run over
an already-normalized coverage map changes nothing and reports zero imports and
zero directives removed, because classified entries were deleted rather than
flagged. -/
theorem c9_normalize_idempotent (src : String → Option (List String)) (m : CoverageMapData) :
    normalizeCoverage src (normalizeCoverage src m).coverageMap =
      { coverageMap := (normalizeCoverage src m).coverageMap
        importsRemoved := 0, directivesRemoved := 0 } := by
  have hcm : (normalizeCoverage src m).coverageMap =
      m.map (fun kv : String × FileCoverageData =>
        (kv.1, (normalizeFileCoverage (src kv.1) kv.2).fileData)) := by
    show (m.map (fun kv : String × FileCoverageData =>
        (kv.1, normalizeFileCoverage (src kv.1) kv.2))).map
      (fun kv : String × NormalizeFileResult => (kv.1, kv.2.fileData)) = _
    rw [List.map_map]
    rfl
  have hresults : ((normalizeCoverage src m).coverageMap).map
      (fun kv : String × FileCoverageData => (kv.1, normalizeFileCoverage (src kv.1) kv.2)) =
      m.map (fun kv : String × FileCoverageData =>
        (kv.1, (⟨(normalizeFileCoverage (src kv.1) kv.2).fileData, 0, 0⟩ : NormalizeFileResult))) := by
    rw [hcm, List.map_map]
    refine List.map_congr_left ?_
    intro a _
    show (a.1, normalizeFileCoverage (src a.1) ((normalizeFileCoverage (src a.1) a.2).fileData))
      = _
    rw [normalizeFileCoverage_idem]
  have h1 : (normalizeCoverage src ((normalizeCoverage src m).coverageMap)).coverageMap =
      (normalizeCoverage src m).coverageMap := by
    show (((normalizeCoverage src m).coverageMap).map
        (fun kv : String × FileCoverageData =>
          (kv.1, normalizeFileCoverage (src kv.1) kv.2))).map
      (fun kv : String × NormalizeFileResult => (kv.1, kv.2.fileData)) = _
    rw [hresults, List.map_map, hcm]
    exact List.map_congr_left (fun a _ => rfl)
  have h2 : (normalizeCoverage src ((normalizeCoverage src m).coverageMap)).importsRemoved
      = 0 := by
    show ((((normalizeCoverage src m).coverageMap).map
        (fun kv : String × FileCoverageData =>
          (kv.1, normalizeFileCoverage (src kv.1) kv.2))).map
      (fun kv : String × NormalizeFileResult => kv.2.importsRemoved)).sum = 0
    rw [hresults, List.map_map]
    refine List.sum_eq_zero ?_
    intro x hx
    obtain ⟨a, _, rfl⟩ := List.mem_map.1 hx
    rfl
  have h3 : (normalizeCoverage src ((normalizeCoverage src m).coverageMap)).directivesRemoved
      = 0 := by
    show ((((normalizeCoverage src m).coverageMap).map
        (fun kv : String × FileCoverageData =>
          (kv.1, normalizeFileCoverage (src kv.1) kv.2))).map
      (fun kv : String × NormalizeFileResult => kv.2.directivesRemoved)).sum = 0
    rw [hresults, List.map_map]
    refine List.sum_eq_zero ?_
    intro x hx
    obtain ⟨a, _, rfl⟩ := List.mem_map.1 hx
    rfl
  calc normalizeCoverage src ((normalizeCoverage src m).coverageMap)
      = { coverageMap :=
            (normalizeCoverage src ((normalizeCoverage src m).coverageMap)).coverageMap
          importsRemoved :=
            (normalizeCoverage src ((normalizeCoverage src m).coverageMap)).importsRemoved
          directivesRemoved :=
            (normalizeCoverage src ((normalizeCoverage src m).coverageMap)).directivesRemoved } :=
        rfl
    _ = { coverageMap := (normalizeCoverage src m).coverageMap
          importsRemoved := 0, directivesRemoved := 0 } := by rw [h1, h2, h3]

theorem entry_eq_of_nodup_keys {α : Type} :
    ∀ {l : List (String × α)}, (l.map Prod.fst).Nodup →
    ∀ {a a' : String × α}, a ∈ l → a' ∈ l → a.1 = a'.1 → a = a' := by
  intro l
  induction l with
  | nil => intro _ a a' ha; simp at ha
  | cons b t ih =>
    intro hnd a a' ha ha' heq
    simp only [List.map_cons, List.nodup_cons] at hnd
    rcases List.mem_cons.1 ha with rfl | hat
    · rcases List.mem_cons.1 ha' with rfl | hat'
      · rfl
      · exfalso
        apply hnd.1
        rw [heq]
        exact List.mem_map_of_mem Prod.fst hat'
    · rcases List.mem_cons.1 ha' with rfl | hat'
      · exfalso
        apply hnd.1
        rw [← heq]
        exact List.mem_map_of_mem Prod.fst hat
      · exact ih hnd.2 hat hat' heq

/-- C6: for a record with readable source text, normalization deletes exactly
the statement entries whose trimmed source line starts with the import keyword
followed by a space or an opening brace, or equals one of the eight directive
literals, counting them as `importsRemoved` and `directivesRemoved`
respectively (and deleting the same keys from `s`); concretely, a file whose
first line is a quoted directive and whose second is an import statement, with
one statement entry on each line, loses exactly those 2 entries with
`importsRemoved = 1` and `directivesRemoved = 1`. -/
theorem c6_normalize_classification :
    (∀ (lines : List String) (d : FileCoverageData), lines ≠ [] →
      (d.statementMap.map Prod.fst).Nodup →
      (normalizeFileCoverage (some lines) d).fileData.statementMap =
        d.statementMap.filter (fun kv =>
          !(isImportLine (lineContentAt lines kv.2.start.line) ||
            isDirective (lineContentAt lines kv.2.start.line))) ∧
      (normalizeFileCoverage (some lines) d).fileData.s =
        d.s.filter (fun kv =>
          !(((d.statementMap.filter (fun kv2 =>
            isImportLine (lineContentAt lines kv2.2.start.line) ||
            isDirective (lineContentAt lines kv2.2.start.line))).map Prod.fst).contains kv.1)) ∧
      (normalizeFileCoverage (some lines) d).importsRemoved =
        (d.statementMap.filter (fun kv =>
          isImportLine (lineContentAt lines kv.2.start.line))).length ∧
      (normalizeFileCoverage (some lines) d).directivesRemoved =
        (d.statementMap.filter (fun kv =>
          isDirective (lineContentAt lines kv.2.start.line))).length) ∧
    ((normalizeFileCoverage (some scLines) scD).importsRemoved = 1 ∧
     (normalizeFileCoverage (some scLines) scD).directivesRemoved = 1 ∧
     scD.statementMap.length = 2 ∧
     (normalizeFileCoverage (some scLines) scD).fileData.statementMap.length = 0 ∧
     (normalizeFileCoverage (some scLines) scD).fileData.s.length = 0) := by
  constructor
  · intro lines d hne hnd
    have heq := normalizeFileCoverage_some_eq lines d hne
    have hK : (classifyKeysToRemove lines d.statementMap).map Prod.fst =
        (d.statementMap.filter (fun kv2 =>
          isImportLine (lineContentAt lines kv2.2.start.line) ||
          isDirective (lineContentAt lines kv2.2.start.line))).map Prod.fst := by
      rw [classifyKeysToRemove_eq, classify_keys_eq_filter_keys]
    refine ⟨?_, ?_, ?_, ?_⟩
    · rw [heq]
      show d.statementMap.filter (fun kv =>
        !(((classifyKeysToRemove lines d.statementMap).map Prod.fst).contains kv.1)) = _
      refine List.filter_congr ?_
      intro a ha
      rw [hK]
      show (!(((d.statementMap.filter _).map Prod.fst).contains a.1)) = _
      congr 1
      cases hx : (isImportLine (lineContentAt lines a.2.start.line) ||
          isDirective (lineContentAt lines a.2.start.line)) with
      | true =>
        have hmemf : a ∈ d.statementMap.filter (fun kv2 =>
            isImportLine (lineContentAt lines kv2.2.start.line) ||
            isDirective (lineContentAt lines kv2.2.start.line)) :=
          List.mem_filter.2 ⟨ha, hx⟩
        exact List.elem_eq_true_of_mem (List.mem_map_of_mem Prod.fst hmemf)
      | false =>
        cases hcont : ((d.statementMap.filter (fun kv2 =>
            isImportLine (lineContentAt lines kv2.2.start.line) ||
            isDirective (lineContentAt lines kv2.2.start.line))).map Prod.fst).contains a.1 with
        | false => rfl
        | true =>
          exfalso
          have hmemk := List.mem_of_elem_eq_true hcont
          obtain ⟨a', ha', hfst⟩ := List.mem_map.1 hmemk
          obtain ⟨ha'm, ha'c⟩ := List.mem_filter.1 ha'
          have haa : a' = a := entry_eq_of_nodup_keys hnd ha'm ha hfst
          rw [haa, hx] at ha'c
          exact Bool.noConfusion ha'c
    · rw [heq]
      show d.s.filter (fun kv =>
        !(((classifyKeysToRemove lines d.statementMap).map Prod.fst).contains kv.1)) = _
      simp only [hK]
    · rw [heq]
      show ((classifyKeysToRemove lines d.statementMap).filter (fun kr => kr.2)).length = _
      rw [classifyKeysToRemove_eq]
      exact count_import_tags lines d.statementMap
    · rw [heq]
      show ((classifyKeysToRemove lines d.statementMap).filter (fun kr => !kr.2)).length = _
      rw [classifyKeysToRemove_eq]
      exact count_directive_tags lines d.statementMap
  · exact ⟨by decide, by decide, by decide, by decide, by decide⟩

/-- Witness for C6 at the scenario input itself. -/
theorem c6_normalize_classification_witness :
    (scLines ≠ [] ∧ (scD.statementMap.map Prod.fst).Nodup) ∧
    ((normalizeFileCoverage (some scLines) scD).fileData.statementMap =
      scD.statementMap.filter (fun kv =>
        !(isImportLine (lineContentAt scLines kv.2.start.line) ||
          isDirective (lineContentAt scLines kv.2.start.line))) ∧
     (normalizeFileCoverage (some scLines) scD).fileData.s =
      scD.s.filter (fun kv =>
        !(((scD.statementMap.filter (fun kv2 =>
          isImportLine (lineContentAt scLines kv2.2.start.line) ||
          isDirective (lineContentAt scLines kv2.2.start.line))).map Prod.fst).contains kv.1)) ∧
     (normalizeFileCoverage (some scLines) scD).importsRemoved =
      (scD.statementMap.filter (fun kv =>
        isImportLine (lineContentAt scLines kv.2.start.line))).length ∧
     (normalizeFileCoverage (some scLines) scD).directivesRemoved =
      (scD.statementMap.filter (fun kv =>
        isDirective (lineContentAt scLines kv.2.start.line))).length) :=
  ⟨⟨by decide, by decide⟩,
    c6_normalize_classification.1 scLines scD (by decide) (by decide)⟩

/-! ### smartMergeCoverage lemmas -/

theorem nodup_append_singleton {α : Type} {l : List α} {a : α} (ha : a ∉ l) (hl : l.Nodup) :
    (l ++ [a]).Nodup := by
  rw [List.nodup_append]
  exact ⟨hl, List.nodup_singleton a, fun x hx hxa =>
    ha ((List.mem_singleton.1 hxa) ▸ hx)⟩

theorem addFileKeys_nodup (m : CoverageMapData) :
    ∀ acc : List String, acc.Nodup → (addFileKeys acc m).Nodup := by
  induction m with
  | nil => intro acc h; exact h
  | cons kv t ih =>
    intro acc h
    show (t.foldl (fun acc2 kv => if kv.1 ∈ acc2 then acc2 else acc2 ++ [kv.1])
      (if kv.1 ∈ acc then acc else acc ++ [kv.1])).Nodup
    by_cases hm : kv.1 ∈ acc
    · rw [if_pos hm]; exact ih acc h
    · rw [if_neg hm]; exact ih _ (nodup_append_singleton hm h)

theorem collectAllFiles_foldl_nodup :
    ∀ (maps : List CoverageMapData) (acc : List String), acc.Nodup →
    (maps.foldl addFileKeys acc).Nodup := by
  intro maps
  induction maps with
  | nil => intro acc h; exact h
  | cons m t ih =>
    intro acc h
    rw [List.foldl_cons]
    exact ih _ (addFileKeys_nodup m acc h)

theorem collectAllFiles_nodup (maps : List CoverageMapData) :
    (collectAllFiles maps).Nodup :=
  collectAllFiles_foldl_nodup maps [] List.nodup_nil

theorem mem_addFileKeys_mono (m : CoverageMapData) :
    ∀ (acc : List String) (x : String), x ∈ acc → x ∈ addFileKeys acc m := by
  induction m with
  | nil => intro acc x h; exact h
  | cons kv t ih =>
    intro acc x h
    show x ∈ t.foldl (fun acc2 kv => if kv.1 ∈ acc2 then acc2 else acc2 ++ [kv.1])
      (if kv.1 ∈ acc then acc else acc ++ [kv.1])
    by_cases hm : kv.1 ∈ acc
    · rw [if_pos hm]; exact ih acc x h
    · rw [if_neg hm]; exact ih _ x (List.mem_append_left _ h)

theorem mem_addFileKeys_of_mem_keys (m : CoverageMapData) :
    ∀ (acc : List String) (path : String), path ∈ m.map Prod.fst →
    path ∈ addFileKeys acc m := by
  induction m with
  | nil => intro acc path h; simp at h
  | cons kv t ih =>
    intro acc path h
    show path ∈ t.foldl (fun acc2 kv => if kv.1 ∈ acc2 then acc2 else acc2 ++ [kv.1])
      (if kv.1 ∈ acc then acc else acc ++ [kv.1])
    rcases List.mem_cons.1 h with heq | hmt
    · have hin : path ∈ (if kv.1 ∈ acc then acc else acc ++ [kv.1]) := by
        by_cases hm : kv.1 ∈ acc
        · rw [if_pos hm, heq]; exact hm
        · rw [if_neg hm, heq]
          exact List.mem_append_right _ (List.mem_singleton_self _)
      exact mem_addFileKeys_mono t _ path hin
    · exact ih _ path hmt

theorem mem_foldl_addFileKeys_mono :
    ∀ (maps : List CoverageMapData) (acc : List String) (x : String),
    x ∈ acc → x ∈ maps.foldl addFileKeys acc := by
  intro maps
  induction maps with
  | nil => intro acc x h; exact h
  | cons m t ih =>
    intro acc x h
    rw [List.foldl_cons]
    exact ih _ x (mem_addFileKeys_mono m acc x h)

theorem mem_foldl_addFileKeys_of :
    ∀ (maps : List CoverageMapData) (acc : List String) (mx : CoverageMapData) (path : String),
    mx ∈ maps → path ∈ mx.map Prod.fst → path ∈ maps.foldl addFileKeys acc := by
  intro maps
  induction maps with
  | nil => intro acc mx path h; simp at h
  | cons m t ih =>
    intro acc mx path hmx hp
    rw [List.foldl_cons]
    rcases List.mem_cons.1 hmx with rfl | hmt
    · exact mem_foldl_addFileKeys_mono t _ path (mem_addFileKeys_of_mem_keys mx acc path hp)
    · exact ih _ mx path hmt hp

theorem mem_collectAllFiles (maps : List CoverageMapData) (mx : CoverageMapData)
    (path : String) (hmx : mx ∈ maps) (hp : path ∈ mx.map Prod.fst) :
    path ∈ collectAllFiles maps :=
  mem_foldl_addFileKeys_of maps [] mx path hmx hp

theorem aget_keyed_filterMap (g : String → Option FileCoverageData) :
    ∀ (files : List String), files.Nodup → ∀ path : String,
    aget (files.filterMap (fun f => (g f).map (fun v => (f, v)))) path =
      if path ∈ files then g path else none := by
  intro files
  induction files with
  | nil =>
    intro _ path
    simp [aget]
  | cons f t ih =>
    intro hnd path
    rw [List.nodup_cons] at hnd
    rw [List.filterMap_cons]
    cases hg : g f with
    | none =>
      show aget (t.filterMap (fun f => (g f).map (fun v => (f, v)))) path = _
      by_cases hp : path = f
      · subst hp
        rw [ih hnd.2 path, if_neg hnd.1, if_pos (List.mem_cons_self _ _), hg]
      · rw [ih hnd.2 path]
        by_cases hpt : path ∈ t
        · rw [if_pos hpt, if_pos (List.mem_cons_of_mem _ hpt)]
        · rw [if_neg hpt, if_neg (by simp [hp, hpt])]
    | some v =>
      show (if f = path then some v else aget (t.filterMap
        (fun f => (g f).map (fun v => (f, v)))) path) = _
      by_cases hp : path = f
      · rw [if_pos hp.symm, if_pos (hp ▸ List.mem_cons_self f t), hp, hg]
      · rw [if_neg (fun hh => hp hh.symm), ih hnd.2 path]
        by_cases hpt : path ∈ t
        · rw [if_pos hpt, if_pos (List.mem_cons_of_mem _ hpt)]
        · rw [if_neg hpt, if_neg (by simp [hp, hpt])]

theorem length_filterMap_eq_countP {α β : Type} (f : α → Option β) :
    ∀ l : List α, (l.filterMap f).length = l.countP (fun a => (f a).isSome) := by
  intro l
  induction l with
  | nil => rfl
  | cons a t ih =>
    rw [List.filterMap_cons, List.countP_cons]
    cases hf : f a with
    | none => simp [hf, ih]
    | some b => simp [hf, ih]

/-- C7: a file path present in exactly one of the input maps is copied verbatim
into the merged map: its merged record is value-equal to that single input
record. -/
theorem c7_single_source_verbatim (m0 m1 : CoverageMapData) (rest : List CoverageMapData)
    (path : String) (rc : FileCoverageData) (mx : CoverageMapData)
    (hmx : mx ∈ m0 :: m1 :: rest)
    (hget : aget mx path = some rc)
    (huniq : (m0 :: m1 :: rest).countP (fun mm => (aget mm path).isSome) = 1) :
    aget (smartMergeCoverage (m0 :: m1 :: rest)) path = some rc := by
  show aget ((collectAllFiles (m0 :: m1 :: rest)).filterMap (fun file =>
    (mergeForFile (m0 :: m1 :: rest) file).map (fun fc => (file, fc)))) path = some rc
  rw [aget_keyed_filterMap (mergeForFile (m0 :: m1 :: rest)) _ (collectAllFiles_nodup _) path]
  have hmem : path ∈ collectAllFiles (m0 :: m1 :: rest) :=
    mem_collectAllFiles _ mx path hmx (mem_keys_of_aget_some hget)
  rw [if_pos hmem]
  have hfm : (m0 :: m1 :: rest).filterMap (fun mm => aget mm path) = [rc] := by
    have hlen : ((m0 :: m1 :: rest).filterMap (fun mm => aget mm path)).length = 1 := by
      rw [length_filterMap_eq_countP]
      exact huniq
    have hrecmem : rc ∈ (m0 :: m1 :: rest).filterMap (fun mm => aget mm path) :=
      List.mem_filterMap.2 ⟨mx, hmx, hget⟩
    obtain ⟨a, ha⟩ := List.length_eq_one.1 hlen
    rw [ha] at hrecmem
    rw [ha, List.mem_singleton.1 hrecmem]
  show (match (m0 :: m1 :: rest).filterMap (fun mm => aget mm path) with
    | [fc] => some fc
    | fcs => mergeFileCoverages fcs) = some rc
  rw [hfm]

/-- Witness for C7 at a concrete input: two maps, `/only.ts` present only in the
first. -/
theorem c7_single_source_verbatim_witness :
    (exMapX ∈ [exMapX, exMapY] ∧ aget exMapX "/only.ts" = some exA ∧
     ([exMapX, exMapY] : List CoverageMapData).countP
       (fun mm => (aget mm "/only.ts").isSome) = 1) ∧
    aget (smartMergeCoverage [exMapX, exMapY]) "/only.ts" = some exA :=
  ⟨⟨by decide, by decide, by decide⟩,
    c7_single_source_verbatim exMapX exMapY [] "/only.ts" exA exMapX
      (by decide) (by decide) (by decide)⟩

end VCM
